import Mathlib

/-!
Shallow embedding of the fetch/merge/download engine of the civitai_downloader
repository (src/civitai_downloader.py and src/civitai_collection_downloader.py).

Modelling conventions, shared by all definitions below:
* Python strings are modelled as `List Char` (`PStr`), with structurally
  recursive implementations of the Python string operations the code uses
  (`split`, `in`, `startswith`, `endswith`, `strip`, slicing), so that every
  definition evaluates by kernel reduction.
* Timestamps are modelled as `Option Int`: `none` stands for an absent or
  unparseable `createdAt` (the code treats a parse failure like an absent
  date everywhere a date is consulted), `some t` for a parsed datetime.
* The local directory is an association list from filename to file bytes;
  byte strings are `List Nat`.  A zero-length byte list is an empty file.
* HTTP traffic is an oracle indexed by the number of requests issued so far;
  a response is either a status code with a body, or a raised
  `requests.exceptions.RequestException` whose text may or may not contain
  the substring "429" (respectively a 5xx code, for the metadata fetchers).
* `time.sleep` calls that implement backoff are recorded in a list; the
  small randomized politeness delays before each request are not modelled
  (they are unconditional and carry no information).
-/

namespace Civitai

/-- A Python string, as a list of characters. -/
abbrev PStr := List Char

/-- Conversion from a Lean string literal to the model representation. -/
def pstr (s : String) : PStr := s.data

/-- Python `s.startswith(pat)`. -/
def startsWithL : PStr → PStr → Bool
  | _, [] => true
  | [], _ :: _ => false
  | c :: s, p :: ps => c = p && startsWithL s ps

/-- Python `s.endswith(pat)`. -/
def endsWithL (s pat : PStr) : Bool :=
  startsWithL s.reverse pat.reverse

/-- Python `pat in s` (substring containment). -/
def containsSubL : PStr → PStr → Bool
  | [], pat => startsWithL [] pat
  | c :: s, pat => startsWithL (c :: s) pat || containsSubL s pat

/-- Python `s.split(c)` for a single-character separator. -/
def splitChar (c : Char) : PStr → List PStr
  | [] => [[]]
  | x :: s =>
    if x = c then [] :: splitChar c s
    else
      match splitChar c s with
      | [] => [[x]]
      | h :: t => (x :: h) :: t

/-- Python `s.split(c)[-1]`. -/
def lastSegAfter (c : Char) (s : PStr) : PStr :=
  (splitChar c s).getLastD []

/-- Python `s.split(c)[0]`. -/
def beforeChar (c : Char) (s : PStr) : PStr :=
  (splitChar c s).headD []

/-- Python `s.strip()` (whitespace trimmed from both ends). -/
def trimL (s : PStr) : PStr :=
  ((s.dropWhile Char.isWhitespace).reverse.dropWhile Char.isWhitespace).reverse

/-- The decimal digits of a natural number, as the Python `str()` of an id. -/
def natChars (n : Nat) : PStr := (toString n).data

/-- One downloadable item as the code reads it out of the JSON payload
(`img_data` in both `download_image` functions): fields are optional exactly
where the code uses `.get`.  `url` models `img_data.get('url')` with `[]`
standing for an absent or empty value (both are falsy in Python). -/
structure Img where
  id : Nat
  url : PStr
  name : Option PStr := none
  type : Option PStr := none
  mimeType : Option PStr := none
  userId : Option Int := none
  createdAt : Option Int := none
  username : Option PStr := none
  postId : Option Nat := none
  postDate : Option Int := none
deriving DecidableEq, Repr

/-- One post as returned by `post.getInfinite`, carrying its embedded images. -/
structure Post where
  id : Nat
  userId : Option Int := none
  createdAt : Option Int := none
  publishedAt : Option Int := none
  images : List Img := []
deriving DecidableEq, Repr

/-- Python `"".join(c for c in s if c.isalpha() or c.isdigit() or c in extra)`
followed by `.strip()`; `extra` is the whitelist of punctuation kept. -/
def sanitizeKeep (extra : List Char) (s : PStr) : PStr :=
  trimL (s.filter (fun c => c.isAlpha || c.isDigit || extra.any (· = c)))

/-- Sanitization used for display names and usernames:
keep alphanumerics, space, hyphen, underscore. -/
def sanitizeName (s : PStr) : PStr :=
  sanitizeKeep [' ', '-', '_'] s

/-- Sanitization used for the composed filename: additionally keeps `.`. -/
def sanitizeFilename (s : PStr) : PStr :=
  sanitizeKeep [' ', '-', '_', '.'] s

/-- Extension inferred from the URL's trailing path segment
(`url.split('/')[-1]`), with the query string stripped first
(`.split('?')[0]`); defaults to `png`.  Both `download_image` variants share
this computation. -/
def urlExt (url : PStr) : PStr :=
  let last := lastSegAfter '/' url
  if last.any (· = '.') then
    let extPart := beforeChar '?' last
    if extPart.any (· = '.') then lastSegAfter '.' extPart else pstr "png"
  else pstr "png"

/-- Extension resolution of `download_image` in `civitai_downloader.py`
(lines 428-441): infer from the URL, then override with `mp4` when the
item's `type` is `video`, then again when the URL ends in `.mp4`.
This variant never consults `mimeType`. -/
def extMain (url : PStr) (type : Option PStr) : PStr :=
  let e1 := urlExt url
  let e2 := if type = some (pstr "video") then pstr "mp4" else e1
  if endsWithL url (pstr ".mp4") then pstr "mp4" else e2

/-- Extension resolution of `download_image` in
`civitai_collection_downloader.py` (lines 310-319): `mimeType == video/mp4`
or `type == video` or a `.mp4` URL suffix force `mp4`, else infer from the
URL, else default `png`. -/
def extColl (url : PStr) (mimeType type : Option PStr) : PStr :=
  if mimeType = some (pstr "video/mp4") || type = some (pstr "video")
      || endsWithL url (pstr ".mp4") then pstr "mp4"
  else urlExt url

/-- Python `img_data.get('name') or default`: an absent or empty name falls
back to the default. -/
def nameOrDefault (name : Option PStr) (dflt : PStr) : PStr :=
  match name with
  | none => dflt
  | some n => if n = [] then dflt else n

/-- Display-name portion of the filename, shared first pass of both variants:
`name = img.get('name') or "image_<id>"`, sanitized, with a second fallback
to `"image_<id>"` when sanitization leaves nothing. -/
def baseName (img : Img) : PStr :=
  let dflt := pstr "image_" ++ natChars img.id
  let n1 := sanitizeName (nameOrDefault img.name dflt)
  if n1 = [] then dflt else n1

/-- Target filename computed by `download_image` in `civitai_downloader.py`
(lines 419-448): `{name}_{id}.{ext}`, re-sanitized, truncated when longer
than 200 characters. -/
def filenameMain (img : Img) : PStr :=
  let ext := extMain img.url img.type
  let f0 := baseName img ++ pstr "_" ++ natChars img.id ++ pstr "." ++ ext
  let f1 := sanitizeFilename f0
  if f1.length > 200 then f1.take 100 ++ pstr "_" ++ natChars img.id ++ pstr "." ++ ext
  else f1

/-- Name used by the collection variant at filename-composition time
(lines 321-362 of `civitai_collection_downloader.py`): for a non-http
(UUID) `url` the code re-reads the raw `name` and re-sanitizes it with no
`image_<id>` fallback; Python renders a `None` name as the string "None"
inside the f-string, and an empty sanitization result stays empty. -/
def collName (img : Img) : PStr :=
  if startsWithL img.url (pstr "http") then baseName img
  else
    match img.name with
    | none => pstr "None"
    | some n => if n = [] then [] else sanitizeName n

/-- Target filename computed by `download_image` in
`civitai_collection_downloader.py` (lines 291-368): optional sanitized
username prefix (omitted when the username is absent or sanitizes to the
empty — falsy — string, lines 304-307 and 359-362), then
`{name}_{id}.{ext}`, re-sanitized and truncated. -/
def filenameColl (img : Img) : PStr :=
  let ext := extColl img.url img.mimeType img.type
  let nm := collName img
  let us :=
    match img.username with
    | none => []
    | some u => sanitizeName u
  let f0 :=
    if us = [] then nm ++ pstr "_" ++ natChars img.id ++ pstr "." ++ ext
    else us ++ pstr "_" ++ nm ++ pstr "_" ++ natChars img.id ++ pstr "." ++ ext
  let f1 := sanitizeFilename f0
  if f1.length > 200 then f1.take 100 ++ pstr "_" ++ natChars img.id ++ pstr "." ++ ext
  else f1

/-- Rewrite of a `width=<N>` path segment to `original=true`, shared by both
variants: applied only when the URL contains `/width=`. -/
def widthRewrite (url : PStr) : PStr :=
  if containsSubL url (pstr "/width=") then
    List.intercalate (pstr "/") ((splitChar '/' url).map
      (fun p => if startsWithL p (pstr "width=") then pstr "original=true" else p))
  else url

/-- Hard-coded image CDN base used when the item's `url` is a bare storage
token rather than a full URL. -/
def cdnBase : PStr := pstr "https://image.civitai.com/xG1nkqKTMzGDvpLrqFT7WA/"

/-- Canonical URL derivation of `download_image` in `civitai_downloader.py`
(lines 391-416): a non-http `url` is treated as a storage token and wrapped
with the CDN base and the raw (unsanitized) `name`, else `width=` segments
are rewritten. -/
def canonicalUrlMain (img : Img) : PStr :=
  if startsWithL img.url (pstr "http") then widthRewrite img.url
  else
    match img.name with
    | none => cdnBase ++ img.url ++ pstr "/original=true/image.png"
    | some n =>
      if n = [] then cdnBase ++ img.url ++ pstr "/original=true/image.png"
      else cdnBase ++ img.url ++ pstr "/original=true/" ++ n

/-- Sanitized re-read of the raw name that the collection variant performs
inside its non-http branch (lines 326-330). -/
def collNameRaw (img : Img) : Option PStr :=
  match img.name with
  | none => none
  | some n => some (sanitizeName n)

/-- Canonical URL derivation of the collection variant: the second
computation at lines 321-356 of `civitai_collection_downloader.py`
overwrites the first one and is the one in force when the transfer starts.
For a non-http token it uses the re-read sanitized name and an
extension-aware placeholder (`video.mp4` for videos). -/
def canonicalUrlColl (img : Img) : PStr :=
  if startsWithL img.url (pstr "http") then widthRewrite img.url
  else
    let nm := collNameRaw img
    let ext := extColl img.url img.mimeType img.type
    if ext = pstr "mp4" then
      match nm with
      | none => cdnBase ++ img.url ++ pstr "/original=true/video.mp4"
      | some n =>
        if n = [] then cdnBase ++ img.url ++ pstr "/original=true/video.mp4"
        else cdnBase ++ img.url ++ pstr "/original=true/" ++ n ++ pstr ".mp4"
    else
      match nm with
      | none => cdnBase ++ img.url ++ pstr "/original=true/image.png"
      | some n =>
        if n = [] then cdnBase ++ img.url ++ pstr "/original=true/image.png"
        else cdnBase ++ img.url ++ pstr "/original=true/" ++ n

/-! ## The local directory -/

/-- The output directory: an association list from filename to file content.
List order doubles as the (unspecified) `glob.glob` enumeration order. -/
abbrev Disk := List (PStr × List Nat)

/-- Content of a file, `none` when the file does not exist. -/
def getFile : Disk → PStr → Option (List Nat)
  | [], _ => none
  | (g, b) :: d, f => if g = f then some b else getFile d f

/-- `os.path.exists`. -/
def fileExists (d : Disk) (f : PStr) : Bool :=
  (getFile d f).isSome

/-- `os.path.getsize` (0 for a missing file; the code only ever reads sizes
of files it has just observed to exist). -/
def fileSize (d : Disk) (f : PStr) : Nat :=
  ((getFile d f).getD []).length

/-- `os.remove`. -/
def removeFile : Disk → PStr → Disk
  | [], _ => []
  | (g, b) :: d, f => if g = f then removeFile d f else (g, b) :: removeFile d f

/-- Create or overwrite a file (`open(path, 'wb')` followed by the writes). -/
def setFile : Disk → PStr → List Nat → Disk
  | [], f, c => [(f, c)]
  | (g, b) :: d, f, c => if g = f then (f, c) :: d else (g, b) :: setFile d f c

/-- `os.rename src dst` (POSIX semantics: replaces `dst` if present). -/
def renameFile (d : Disk) (src dst : PStr) : Disk :=
  match getFile d src with
  | none => d
  | some c => setFile (removeFile d src) dst c

/-- The glob pattern `*_{img_id}.*` used by the duplicate check. -/
def globPat (i : Nat) : PStr :=
  pstr "_" ++ natChars i ++ pstr "."

/-- `glob.glob(os.path.join(output_dir, "*_{img_id}.*"))`: the files of the
directory whose name contains `_{img_id}.`, in directory order. -/
def globList (d : Disk) (i : Nat) : List PStr :=
  (d.map (·.1)).filter (fun f => containsSubL f (globPat i))

/-! ## Pre-write reconciliation (duplicate check) -/

/-- One iteration of the duplicate-check loop of `download_image`
(`civitai_downloader.py` lines 459-482, identical in effect to
`civitai_collection_downloader.py` lines 379-399): skip the target itself;
delete the match when the target already exists non-empty; otherwise rename
a non-empty match onto the target; otherwise leave it alone. -/
def reconStep (fp : PStr) (d : Disk) (m : PStr) : Disk :=
  if m = fp then d
  else if fileExists d fp && fileSize d fp > 0 then removeFile d m
  else if fileSize d m > 0 then renameFile d m fp
  else d

/-- The full duplicate-check pass over the glob matches. -/
def reconcile (d : Disk) (fp : PStr) (ms : List PStr) : Disk :=
  ms.foldl (reconStep fp) d

/-- Instrumented variant of `reconStep` that also counts renames. -/
def reconStepC (fp : PStr) (p : Disk × Nat) (m : PStr) : Disk × Nat :=
  if m = fp then p
  else if fileExists p.1 fp && fileSize p.1 fp > 0 then (removeFile p.1 m, p.2)
  else if fileSize p.1 m > 0 then (renameFile p.1 m fp, p.2 + 1)
  else p

/-- Reconciliation with its rename count. -/
def reconcileC (d : Disk) (fp : PStr) (ms : List PStr) : Disk × Nat :=
  ms.foldl (reconStepC fp) (d, 0)

/-! ## The transfer loop -/

/-- One HTTP response as the download loop sees it: either a status code
with the (fully streamed) body bytes, or a raised
`requests.exceptions.RequestException` whose text may contain "429". -/
inductive Resp where
  | ok (status : Nat) (body : List Nat)
  | exc (has429 : Bool)
deriving DecidableEq, Repr

/-- The network: response to the `k`-th request issued by this worker. -/
abbrev Api := Nat → Resp

/-- Result of one `download_image` call: the returned truth value, the
number of HTTP requests issued, the backoff sleeps performed (seconds, in
order), and the final directory state. -/
structure DLResult where
  success : Bool
  requests : Nat
  sleeps : List Nat
  disk : Disk
deriving DecidableEq, Repr

/-- The retry loop of `download_image` in `civitai_downloader.py`
(lines 500-553).  `rem` is the remaining attempt budget (starting at 10),
`a` the 0-based attempt index, `k` the number of requests issued so far.
`fb` is the fallback condition `original_url != url and
url.startswith('http')` (line 519); a non-2xx response with no fallback
reaches `raise_for_status`, whose exception text names the status code and
therefore never contains "429" for a non-429 status, so it sleeps the fixed
5 seconds of the generic network-error branch (line 548). -/
def dlLoopMain (api : Api) (fp : PStr) (fb : Bool) :
    Nat → Nat → Nat → List Nat → Disk → DLResult
  | 0, _, k, sleeps, d => ⟨false, k, sleeps, d⟩
  | rem + 1, a, k, sleeps, d =>
    match api k with
    | .exc t =>
      dlLoopMain api fp fb rem (a + 1) (k + 1)
        (sleeps ++ [if t then (a + 1) * 10 else 5]) d
    | .ok s b =>
      if s = 429 then
        dlLoopMain api fp fb rem (a + 1) (k + 1) (sleeps ++ [(a + 1) * 10]) d
      else if s ≠ 200 && fb then
        match api (k + 1) with
        | .exc t =>
          dlLoopMain api fp fb rem (a + 1) (k + 2)
            (sleeps ++ [if t then (a + 1) * 10 else 5]) d
        | .ok s2 b2 =>
          if s2 = 429 then
            dlLoopMain api fp fb rem (a + 1) (k + 2) (sleeps ++ [(a + 1) * 10]) d
          else if 200 ≤ s2 && s2 < 300 then
            let d2 := setFile d fp b2
            if b2.length > 0 then ⟨true, k + 2, sleeps, d2⟩
            else dlLoopMain api fp fb rem (a + 1) (k + 2) sleeps d2
          else dlLoopMain api fp fb rem (a + 1) (k + 2) (sleeps ++ [5]) d
      else if 200 ≤ s && s < 300 then
        let d2 := setFile d fp b
        if b.length > 0 then ⟨true, k + 1, sleeps, d2⟩
        else dlLoopMain api fp fb rem (a + 1) (k + 1) sleeps d2
      else dlLoopMain api fp fb rem (a + 1) (k + 1) (sleeps ++ [5]) d

/-- `download_image` of `civitai_downloader.py` (lines 382-557): guard on a
falsy `url`, canonical-URL and filename computation, duplicate check,
already-present short-circuit, then the transfer loop. -/
def downloadImageMain (img : Img) (d : Disk) (api : Api) : DLResult :=
  if img.url = [] then ⟨false, 0, [], d⟩
  else
    let origUrl := canonicalUrlMain img
    let fp := filenameMain img
    let d1 := reconcile d fp (globList d img.id)
    if fileExists d1 fp && fileSize d1 fp > 0 then ⟨true, 0, [], d1⟩
    else
      dlLoopMain api fp
        (origUrl ≠ img.url && startsWithL img.url (pstr "http")) 10 0 0 [] d1

/-- The retry loop of `download_image` in `civitai_collection_downloader.py`
(lines 413-459): an HTTP 200 writes the body and returns success with no
size verification; a non-429, non-200 response (after the fallback, tried
whenever `original_url != url`) returns failure immediately instead of
retrying. -/
def dlLoopColl (api : Api) (fp : PStr) (fb : Bool) :
    Nat → Nat → Nat → List Nat → Disk → DLResult
  | 0, _, k, sleeps, d => ⟨false, k, sleeps, d⟩
  | rem + 1, a, k, sleeps, d =>
    match api k with
    | .exc t =>
      dlLoopColl api fp fb rem (a + 1) (k + 1)
        (sleeps ++ [if t then (a + 1) * 10 else 5]) d
    | .ok s b =>
      if s = 429 then
        dlLoopColl api fp fb rem (a + 1) (k + 1) (sleeps ++ [(a + 1) * 10]) d
      else if s = 200 then ⟨true, k + 1, sleeps, setFile d fp b⟩
      else if fb then
        match api (k + 1) with
        | .exc t =>
          dlLoopColl api fp fb rem (a + 1) (k + 2)
            (sleeps ++ [if t then (a + 1) * 10 else 5]) d
        | .ok s2 b2 =>
          if s2 = 429 then
            dlLoopColl api fp fb rem (a + 1) (k + 2) (sleeps ++ [(a + 1) * 10]) d
          else if s2 = 200 then ⟨true, k + 2, sleeps, setFile d fp b2⟩
          else ⟨false, k + 2, sleeps, d⟩
      else ⟨false, k + 1, sleeps, d⟩

/-- `download_image` of `civitai_collection_downloader.py` (lines 256-463). -/
def downloadImageColl (img : Img) (d : Disk) (api : Api) : DLResult :=
  if img.url = [] then ⟨false, 0, [], d⟩
  else
    let origUrl := canonicalUrlColl img
    let fp := filenameColl img
    let d1 := reconcile d fp (globList d img.id)
    if fileExists d1 fp && fileSize d1 fp > 0 then ⟨true, 0, [], d1⟩
    else
      dlLoopColl api fp (origUrl ≠ img.url) 10 0 0 [] d1

/-! ## Per-item filtering during metadata fetching -/

/-- Date acceptance for an image (`civitai_downloader.py` lines 222-233):
with a date bound set, an item with a parseable `createdAt` strictly older
than the bound is skipped; an absent or unparseable date is kept. -/
def dateKeptImg (after : Option Int) (img : Img) : Bool :=
  match after, img.createdAt with
  | some ad, some c => !(c < ad)
  | _, _ => true

/-- The per-item keep decision of `get_images` (lines 203-235): the
ownership check drops an item only when querying by numeric id
(`is_username` false) and only when the embedded `userId` is present and
differs; then the date check applies. -/
def imageKept (isUsername : Bool) (qid : Int) (after : Option Int) (img : Img) : Bool :=
  if !isUsername && img.userId.isSome && img.userId ≠ some qid then false
  else dateKeptImg after img

/-- The post-level date value `post.get('createdAt') or post.get('publishedAt')`. -/
def postDateVal (p : Post) : Option Int :=
  p.createdAt.orElse (fun _ => p.publishedAt)

/-- Date acceptance for a post (`civitai_downloader.py` lines 336-345). -/
def dateKeptPost (after : Option Int) (p : Post) : Bool :=
  match after, postDateVal p with
  | some ad, some c => !(c < ad)
  | _, _ => true

/-- The per-post keep decision of `get_posts` (lines 325-345): strict
ownership check only when querying by numeric id, then the date check. -/
def postKept (isUsername : Bool) (qid : Int) (after : Option Int) (p : Post) : Bool :=
  if !isUsername && p.userId.isSome && p.userId ≠ some qid then false
  else dateKeptPost after p

/-- Post metadata attached to an image extracted from a post
(lines 349-357): `postId` and `postDate` are set, and a missing `createdAt`
is inherited from the post. -/
def attachPost (p : Post) (img : Img) : Img :=
  { img with
    postId := some p.id
    postDate := postDateVal p
    createdAt := match img.createdAt with
      | none => postDateVal p
      | some c => some c }

/-! ## Cursor pagination -/

/-- Python truthiness of a continuation cursor (`if not cursor: break`):
an absent or empty cursor is falsy. -/
def cursorTruthy : Option PStr → Bool
  | none => false
  | some s => s ≠ []

/-- One page of `image.getInfinite`. -/
structure Page where
  items : List Img
  nextCursor : Option PStr
deriving DecidableEq, Repr

/-- One page of `post.getInfinite`. -/
structure PostPage where
  posts : List Post
  nextCursor : Option PStr
deriving DecidableEq, Repr

/-- Outcome of fetching one page: the parsed page, or exhaustion of the
5-attempt retry budget (the `for`-`else` branch that breaks out of the
pagination loop). -/
inductive FetchOut (α : Type) where
  | page (p : α)
  | failed
deriving DecidableEq, Repr

/-- The `break` condition of the date optimization in `get_images`
(lines 246-256): the last item of the raw batch has a parseable date older
than the bound. -/
def dateOptBreakImg (after : Option Int) (items : List Img) : Bool :=
  match after, items.getLast? with
  | some ad, some it =>
    match it.createdAt with
    | some c => c < ad
    | none => false
  | _, _ => false

/-- The analogous date optimization of `get_posts` (lines 367-378). -/
def dateOptBreakPost (after : Option Int) (posts : List Post) : Bool :=
  match after, posts.getLast? with
  | some ad, some p =>
    match postDateVal p with
    | some c => c < ad
    | none => false
  | _, _ => false

/-- The pagination loop of `get_images` (`civitai_downloader.py` lines
149-256), with `fuel` bounding the number of iterations modelled.  The
oracle is indexed by the page-request number `k`; the result is the
accumulated item list and the number of page requests issued.  After a
successful page the code filters the batch, reassigns
`cursor = result_data.get('nextCursor')` and stops only on a falsy cursor
or on the date optimization: there is no comparison against the cursor
just used. -/
def getImagesLoop (api : Nat → FetchOut Page) (isUsername : Bool) (qid : Int)
    (after : Option Int) :
    Nat → Nat → Option PStr → List Img → List Img × Nat
  | 0, k, _, acc => (acc, k)
  | fuel + 1, k, _cursor, acc =>
    match api k with
    | .failed => (acc, k + 1)
    | .page p =>
      let acc2 := acc ++ p.items.filter (imageKept isUsername qid after)
      if !cursorTruthy p.nextCursor then (acc2, k + 1)
      else if dateOptBreakImg after p.items then (acc2, k + 1)
      else getImagesLoop api isUsername qid after fuel (k + 1) p.nextCursor acc2

/-- The pagination loop of `get_posts` (lines 278-378): an empty batch
breaks before extraction; the continuation guard is
`if not next_cursor or next_cursor == cursor: break` — the stuck-cursor
cycle guard the other loop lacks. -/
def getPostsLoop (api : Nat → FetchOut PostPage) (isUsername : Bool) (qid : Int)
    (after : Option Int) :
    Nat → Nat → Option PStr → List Img → List Img × Nat
  | 0, k, _, acc => (acc, k)
  | fuel + 1, k, cursor, acc =>
    match api k with
    | .failed => (acc, k + 1)
    | .page p =>
      if p.posts = [] then (acc, k + 1)
      else
        let ex := (p.posts.filter (postKept isUsername qid after)).flatMap
          (fun post => post.images.map (attachPost post))
        let acc2 := acc ++ ex
        if !cursorTruthy p.nextCursor || p.nextCursor = cursor then (acc2, k + 1)
        else if dateOptBreakPost after p.posts then (acc2, k + 1)
        else getPostsLoop api isUsername qid after fuel (k + 1) p.nextCursor acc2

/-- The pagination loop of `get_collection_images`
(`civitai_collection_downloader.py` lines 95-174): no per-item filtering,
an empty batch breaks, and the continuation guard includes the same
stuck-cursor cycle guard as `get_posts`. -/
def getCollectionLoop (api : Nat → FetchOut Page) :
    Nat → Nat → Option PStr → List Img → List Img × Nat
  | 0, k, _, acc => (acc, k)
  | fuel + 1, k, cursor, acc =>
    match api k with
    | .failed => (acc, k + 1)
    | .page p =>
      if p.items = [] then (acc, k + 1)
      else
        let acc2 := acc ++ p.items
        if !cursorTruthy p.nextCursor || p.nextCursor = cursor then (acc2, k + 1)
        else getCollectionLoop api fuel (k + 1) p.nextCursor acc2

/-! ## The per-page retry loop (5xx / transient failures) -/

/-- Outcome of one page-request attempt: an HTTP status, or a raised
`RequestException` whose text may name a 5xx status ("500", "502", "503"
or "504"). -/
inductive AttemptOut where
  | http (status : Nat)
  | netexc (has5xx : Bool)
deriving DecidableEq, Repr

/-- Result of the 5-attempt page retry loop: whether a page was obtained,
and the backoff sleeps performed (seconds, in order). -/
structure FetchTry where
  ok : Bool
  sleeps : List Nat
deriving DecidableEq, Repr

/-- The retry loop of `get_images` (lines 169-190), also that of
`get_collection_images` (lines 119-150): a 5xx status sleeps
`(attempt+1)*5`; a 2xx parses and succeeds; any other status raises through
`raise_for_status` and, like every other `RequestException`, is retried —
with the `(attempt+1)*5` backoff only when the attempt is not the last one
and the exception text names a 5xx code, and with no backoff otherwise. -/
def fetchRetryImages (o : Nat → AttemptOut) : Nat → Nat → List Nat → FetchTry
  | 0, _, sleeps => ⟨false, sleeps⟩
  | rem + 1, a, sleeps =>
    match o a with
    | .http st =>
      if 500 ≤ st && st < 600 then
        fetchRetryImages o rem (a + 1) (sleeps ++ [(a + 1) * 5])
      else if 200 ≤ st && st < 300 then ⟨true, sleeps⟩
      else fetchRetryImages o rem (a + 1) sleeps
    | .netexc t =>
      if a < 4 && t then fetchRetryImages o rem (a + 1) (sleeps ++ [(a + 1) * 5])
      else fetchRetryImages o rem (a + 1) sleeps

/-- The retry loop of `get_posts` (lines 300-314): the 5xx status branch
sleeps `(attempt+1)*5`, but every raised `RequestException` — including
non-2xx statuses surfaced by `raise_for_status` — sleeps `(attempt+1)*2`. -/
def fetchRetryPosts (o : Nat → AttemptOut) : Nat → Nat → List Nat → FetchTry
  | 0, _, sleeps => ⟨false, sleeps⟩
  | rem + 1, a, sleeps =>
    match o a with
    | .http st =>
      if 500 ≤ st && st < 600 then
        fetchRetryPosts o rem (a + 1) (sleeps ++ [(a + 1) * 5])
      else if 200 ≤ st && st < 300 then ⟨true, sleeps⟩
      else fetchRetryPosts o rem (a + 1) (sleeps ++ [(a + 1) * 2])
    | .netexc _ => fetchRetryPosts o rem (a + 1) (sleeps ++ [(a + 1) * 2])

/-- The `max_retries = 5` page fetch of `get_images` / `get_collection_images`. -/
def fetchPageImages (o : Nat → AttemptOut) : FetchTry :=
  fetchRetryImages o 5 0 []

/-- The `max_retries = 5` page fetch of `get_posts`. -/
def fetchPagePosts (o : Nat → AttemptOut) : FetchTry :=
  fetchRetryPosts o 5 0 []

/-! ## Merge (`process_user` lines 606-619, `process_collection` 489-495) -/

/-- Python `dict[key] = value`: replace in place, else append (insertion
order preserved, like a CPython dict). -/
def dictInsert : List (Nat × Img) → Nat → Img → List (Nat × Img)
  | [], k, v => [(k, v)]
  | (k2, v2) :: m, k, v =>
    if k2 = k then (k, v) :: m else (k2, v2) :: dictInsert m k v

/-- Python `key in dict` / `dict.get`. -/
def dictFind : List (Nat × Img) → Nat → Option Img
  | [], _ => none
  | (k2, v2) :: m, k => if k2 = k then some v2 else dictFind m k

/-- The merge map: `all_items = {img['id']: img for img in images}` (a dict
comprehension, so a later duplicate id overwrites an earlier one), then
each post-derived item is added only `if post_item['id'] not in all_items`. -/
def mergeMap (images posts : List Img) : List (Nat × Img) :=
  let m0 := images.foldl (fun m i => dictInsert m i.id i) []
  posts.foldl
    (fun m i => if (dictFind m i.id).isSome then m else m ++ [(i.id, i)]) m0

/-- `final_items = list(all_items.values())`.  (The subsequent cosmetic
date sort does not change the multiset of items and is not modelled.) -/
def mergeItems (images posts : List Img) : List Img :=
  (mergeMap images posts).map (·.2)

/-- The last element of `l` whose id is `k` — what a Python dict
comprehension retains for a duplicated key. -/
def lastWithId (k : Nat) : List Img → Option Img
  | [] => none
  | i :: l =>
    match lastWithId k l with
    | some v => some v
    | none => if i.id = k then some i else none

/-- The first element of `l` whose id is `k`. -/
def firstWithId (k : Nat) : List Img → Option Img
  | [] => none
  | i :: l => if i.id = k then some i else firstWithId k l

/-- The backoff schedule `(attempt+1) * 10` produced by `rem` consecutive
rate-limited attempts starting at attempt index `a`. -/
def sleeps429 : Nat → Nat → List Nat
  | 0, _ => []
  | rem + 1, a => (a + 1) * 10 :: sleeps429 rem (a + 1)

/-- The backoff schedule `(attempt+1) * 5` produced by `rem` consecutive
server-error attempts starting at attempt index `a`. -/
def sleeps5xx : Nat → Nat → List Nat
  | 0, _ => []
  | rem + 1, a => (a + 1) * 5 :: sleeps5xx rem (a + 1)

/-! ## Directory lemmas -/

theorem getFile_setFile_self (d : Disk) (f : PStr) (c : List Nat) :
    getFile (setFile d f c) f = some c := by
  induction d with
  | nil => simp [setFile, getFile]
  | cons e d ih =>
    obtain ⟨g, b⟩ := e
    by_cases h : g = f
    · simp [setFile, getFile, h]
    · simp [setFile, getFile, h, ih]

theorem getFile_setFile_ne (d : Disk) (f g : PStr) (c : List Nat) (h : g ≠ f) :
    getFile (setFile d f c) g = getFile d g := by
  induction d with
  | nil => simp [setFile, getFile, Ne.symm h]
  | cons e d ih =>
    obtain ⟨g2, b⟩ := e
    by_cases h2 : g2 = f
    · subst h2
      simp [setFile, getFile, Ne.symm h]
    · by_cases h3 : g2 = g <;> simp [setFile, getFile, h2, h3, h, ih]

theorem getFile_removeFile (d : Disk) (f g : PStr) :
    getFile (removeFile d f) g = if g = f then none else getFile d g := by
  induction d with
  | nil => simp [removeFile, getFile]
  | cons e d ih =>
    obtain ⟨g2, b⟩ := e
    simp only [removeFile, getFile]
    by_cases h2 : g2 = f
    · subst h2
      rw [if_pos rfl, ih]
      by_cases h3 : g = g2
      · simp [h3]
      · simp [getFile, h3, Ne.symm h3]
    · rw [if_neg h2]
      by_cases h3 : g2 = g
      · subst h3
        simp [getFile, Ne.symm h2, h2]
      · simp [getFile, h3, ih]

theorem getFile_renameFile_dst (d : Disk) (src dst : PStr) (c : List Nat)
    (hc : getFile d src = some c) :
    getFile (renameFile d src dst) dst = some c := by
  simp [renameFile, hc, getFile_setFile_self]

theorem getFile_renameFile_src (d : Disk) (src dst : PStr) (h : src ≠ dst) :
    getFile (renameFile d src dst) src = none := by
  unfold renameFile
  cases hc : getFile d src with
  | none => simpa using hc
  | some c =>
    rw [getFile_setFile_ne _ _ _ _ h, getFile_removeFile]
    simp

theorem getFile_renameFile_other (d : Disk) (src dst g : PStr)
    (h1 : g ≠ src) (h2 : g ≠ dst) :
    getFile (renameFile d src dst) g = getFile d g := by
  unfold renameFile
  cases hc : getFile d src with
  | none => rfl
  | some c =>
    rw [getFile_setFile_ne _ _ _ _ h2, getFile_removeFile]
    simp [h1]

theorem fileSize_pos_getFile (d : Disk) (f : PStr) (h : 0 < fileSize d f) :
    ∃ c, getFile d f = some c ∧ 0 < c.length := by
  unfold fileSize at h
  cases hc : getFile d f with
  | none => rw [hc] at h; simp at h
  | some c => rw [hc] at h; exact ⟨c, rfl, by simpa using h⟩

theorem fileSize_eq_of_getFile_eq (d e : Disk) (f : PStr)
    (h : getFile d f = getFile e f) : fileSize d f = fileSize e f := by
  unfold fileSize
  rw [h]

/-! ## Reconciliation lemmas -/

theorem reconcile_nil (d : Disk) (fp : PStr) : reconcile d fp [] = d := rfl

theorem reconcile_cons (d : Disk) (fp m : PStr) (ms : List PStr) :
    reconcile d fp (m :: ms) = reconcile (reconStep fp d m) fp ms := rfl

/-- A file other than the target that is empty or absent stays that way
through one reconciliation step. -/
theorem reconStep_nogrow (fp : PStr) (d : Disk) (m f : PStr)
    (hf : f ≠ fp) (h0 : fileSize d f = 0) :
    fileSize (reconStep fp d m) f = 0 := by
  unfold reconStep
  split
  · exact h0
  · next hmfp =>
    split
    · unfold fileSize at *
      rw [getFile_removeFile]
      split
      · simp
      · exact h0
    · split
      · by_cases hfm : f = m
        · subst hfm
          unfold fileSize
          rw [getFile_renameFile_src _ _ _ hmfp]
          simp
        · unfold fileSize at *
          rw [getFile_renameFile_other _ _ _ _ hfm hf]
          exact h0
      · exact h0

theorem reconcile_nogrow (fp f : PStr) (hf : f ≠ fp) :
    ∀ (ms : List PStr) (d : Disk), fileSize d f = 0 →
      fileSize (reconcile d fp ms) f = 0 := by
  intro ms
  induction ms with
  | nil => intro d h0; exact h0
  | cons m ms ih =>
    intro d h0
    rw [reconcile_cons]
    exact ih _ (reconStep_nogrow fp d m f hf h0)

/-- A file other than the target that is absent stays absent. -/
theorem reconStep_none (fp : PStr) (d : Disk) (m f : PStr)
    (hf : f ≠ fp) (h0 : getFile d f = none) :
    getFile (reconStep fp d m) f = none := by
  unfold reconStep
  split
  · exact h0
  · split
    · rw [getFile_removeFile]
      split
      · rfl
      · exact h0
    · split
      · by_cases hfm : f = m
        · subst hfm
          unfold renameFile
          rw [h0]
          exact h0
        · rw [getFile_renameFile_other _ _ _ _ hfm hf]
          exact h0
      · exact h0

theorem reconcile_none (fp f : PStr) (hf : f ≠ fp) :
    ∀ (ms : List PStr) (d : Disk), getFile d f = none →
      getFile (reconcile d fp ms) f = none := by
  intro ms
  induction ms with
  | nil => intro d h0; exact h0
  | cons m ms ih =>
    intro d h0
    rw [reconcile_cons]
    exact ih _ (reconStep_none fp d m f hf h0)

/-- After the pass, every processed match other than the target is empty or
gone: a visited match is deleted, renamed away, or was already empty. -/
theorem reconcile_matches_empty (fp f : PStr) (hf : f ≠ fp) :
    ∀ (ms : List PStr) (d : Disk), f ∈ ms →
      fileSize (reconcile d fp ms) f = 0 := by
  intro ms
  induction ms with
  | nil => intro d h; cases h
  | cons m ms ih =>
    intro d hmem
    rw [reconcile_cons]
    rcases List.mem_cons.mp hmem with hfm | hfm
    · subst hfm
      have hstep : fileSize (reconStep fp d f) f = 0 := by
        unfold reconStep
        rw [if_neg hf]
        split
        · unfold fileSize
          rw [getFile_removeFile]
          simp
        · split
          · unfold fileSize
            rw [getFile_renameFile_src _ _ _ hf]
            simp
          · next h => omega
      exact reconcile_nogrow fp f hf ms _ hstep
    · exact ih _ hfm

/-- While the target is non-empty, a step deletes the current match and
leaves the target untouched. -/
theorem reconStep_of_target_full (fp : PStr) (d : Disk) (m : PStr)
    (hm : m ≠ fp) (h : 0 < fileSize d fp) :
    reconStep fp d m = removeFile d m := by
  unfold reconStep
  rw [if_neg hm]
  have hex : fileExists d fp = true := by
    obtain ⟨c, hc, _⟩ := fileSize_pos_getFile d fp h
    simp [fileExists, hc]
  simp [hex, h]

theorem reconcile_target_preserved (fp : PStr) :
    ∀ (ms : List PStr) (d : Disk), 0 < fileSize d fp →
      getFile (reconcile d fp ms) fp = getFile d fp := by
  intro ms
  induction ms with
  | nil => intro d _; rfl
  | cons m ms ih =>
    intro d h
    rw [reconcile_cons]
    by_cases hm : m = fp
    · have hid : reconStep fp d m = d := by
        unfold reconStep
        rw [if_pos hm]
      rw [hid]
      exact ih d h
    · rw [reconStep_of_target_full fp d m hm h]
      have hkeep : getFile (removeFile d m) fp = getFile d fp := by
        rw [getFile_removeFile, if_neg (Ne.symm hm)]
      have hfull : 0 < fileSize (removeFile d m) fp := by
        unfold fileSize
        rw [hkeep]
        exact h
      rw [ih _ hfull, hkeep]

/-- When the target is already valid, every match other than the target is
actually deleted (not merely emptied). -/
theorem reconcile_deletes_when_target_full (fp : PStr) :
    ∀ (ms : List PStr) (d : Disk), 0 < fileSize d fp →
      ∀ f ∈ ms, f ≠ fp → getFile (reconcile d fp ms) f = none := by
  intro ms
  induction ms with
  | nil => intro d _ f h; cases h
  | cons m ms ih =>
    intro d h f hmem hf
    rw [reconcile_cons]
    by_cases hm : m = fp
    · have hid : reconStep fp d m = d := by
        unfold reconStep
        rw [if_pos hm]
      rw [hid]
      rcases List.mem_cons.mp hmem with hfm | hfm
      · exact absurd (hfm.trans hm) hf
      · exact ih d h f hfm hf
    · rw [reconStep_of_target_full fp d m hm h]
      have hfull : 0 < fileSize (removeFile d m) fp := by
        unfold fileSize
        rw [getFile_removeFile, if_neg (Ne.symm hm)]
        exact h
      rcases List.mem_cons.mp hmem with hfm | hfm
      · subst hfm
        apply reconcile_none fp f hf
        rw [getFile_removeFile]
        simp
      · exact ih _ hfull f hfm hf

/-- A file that is neither the target nor one of the matches is untouched. -/
theorem reconcile_untouched (fp f : PStr) (hf : f ≠ fp) :
    ∀ (ms : List PStr) (d : Disk), f ∉ ms →
      getFile (reconcile d fp ms) f = getFile d f := by
  intro ms
  induction ms with
  | nil => intro d _; rfl
  | cons m ms ih =>
    intro d hnot
    rw [reconcile_cons]
    have hfm : f ≠ m := fun h => hnot (h ▸ List.mem_cons_self m ms)
    have hstep : getFile (reconStep fp d m) f = getFile d f := by
      unfold reconStep
      split
      · rfl
      · split
        · rw [getFile_removeFile, if_neg hfm]
        · split
          · rw [getFile_renameFile_other _ _ _ _ hfm hf]
          · rfl
    rw [ih _ (fun h => hnot (List.mem_cons_of_mem m h)), hstep]

/-- The rename-as-recovery branch: while the target is missing or empty,
the first non-empty match is renamed onto the target, bytes intact, and the
rest of the pass leaves the target alone. -/
theorem reconcile_first_rename (fp : PStr) :
    ∀ (ms1 : List PStr) (m : PStr) (ms2 : List PStr) (d : Disk),
      (∀ x ∈ ms1, x = fp ∨ fileSize d x = 0) → m ≠ fp →
      0 < fileSize d m → fileSize d fp = 0 →
      getFile (reconcile d fp (ms1 ++ m :: ms2)) fp = getFile d m := by
  intro ms1
  induction ms1 with
  | nil =>
    intro m ms2 d _ hm hms hfp
    rw [List.nil_append, reconcile_cons]
    obtain ⟨c, hc, hlen⟩ := fileSize_pos_getFile d m hms
    have hstep : reconStep fp d m = renameFile d m fp := by
      unfold reconStep
      rw [if_neg hm]
      have hnot : ¬(fileExists d fp && decide (fileSize d fp > 0)) = true := by
        simp [hfp]
      rw [if_neg hnot, if_pos hms]
    rw [hstep]
    have hdst : getFile (renameFile d m fp) fp = some c :=
      getFile_renameFile_dst d m fp c hc
    have hfull : 0 < fileSize (renameFile d m fp) fp := by
      unfold fileSize
      rw [hdst]
      simpa using hlen
    rw [reconcile_target_preserved fp ms2 _ hfull, hdst, hc]
  | cons x ms1 ih =>
    intro m ms2 d hall hm hms hfp
    rw [List.cons_append, reconcile_cons]
    have hxd : reconStep fp d x = d := by
      unfold reconStep
      by_cases hx : x = fp
      · rw [if_pos hx]
      · rw [if_neg hx]
        have hx0 : fileSize d x = 0 := by
          rcases hall x (List.mem_cons_self x ms1) with h | h
          · exact absurd h hx
          · exact h
        have hnot : ¬(fileExists d fp && decide (fileSize d fp > 0)) = true := by
          simp [hfp]
        rw [if_neg hnot, if_neg (by omega)]
    rw [hxd]
    exact ih m ms2 d (fun y hy => hall y (List.mem_cons_of_mem x hy)) hm hms hfp

/-- The instrumented fold computes the same directory. -/
theorem reconcileC_fst (fp : PStr) :
    ∀ (ms : List PStr) (d : Disk) (n : Nat),
      (ms.foldl (reconStepC fp) (d, n)).1 = reconcile d fp ms := by
  intro ms
  induction ms with
  | nil => intro d n; rfl
  | cons m ms ih =>
    intro d n
    have hstep : reconStepC fp (d, n) m
        = (reconStep fp d m, (reconStepC fp (d, n) m).2) := by
      unfold reconStepC reconStep
      split
      · rfl
      · split
        · rfl
        · split
          · rfl
          · rfl
    rw [List.foldl_cons, reconcile_cons, hstep, ih]

/-- While the target is valid no rename ever fires. -/
theorem reconcileC_count_stays (fp : PStr) :
    ∀ (ms : List PStr) (d : Disk) (n : Nat), 0 < fileSize d fp →
      (ms.foldl (reconStepC fp) (d, n)).2 = n := by
  intro ms
  induction ms with
  | nil => intro d n _; rfl
  | cons m ms ih =>
    intro d n h
    rw [List.foldl_cons]
    by_cases hm : m = fp
    · have hid : reconStepC fp (d, n) m = (d, n) := by
        unfold reconStepC
        rw [if_pos hm]
      rw [hid]
      exact ih d n h
    · have hex : fileExists d fp = true := by
        obtain ⟨c, hc, _⟩ := fileSize_pos_getFile d fp h
        simp [fileExists, hc]
      have hid : reconStepC fp (d, n) m = (removeFile d m, n) := by
        unfold reconStepC
        rw [if_neg hm]
        simp [hex, h]
      rw [hid]
      have hfull : 0 < fileSize (removeFile d m) fp := by
        unfold fileSize
        rw [getFile_removeFile, if_neg (Ne.symm hm)]
        exact h
      exact ih _ n hfull

/-- At most one rename per reconciliation pass: once a rename fires, the
target is non-empty and every further match is deleted instead. -/
theorem reconcileC_count_le_one (fp : PStr) :
    ∀ (ms : List PStr) (d : Disk) (n : Nat),
      (ms.foldl (reconStepC fp) (d, n)).2 ≤ n + 1 := by
  intro ms
  induction ms with
  | nil =>
    intro d n
    simp
  | cons m ms ih =>
    intro d n
    rw [List.foldl_cons]
    by_cases hm : m = fp
    · have hid : reconStepC fp (d, n) m = (d, n) := by
        unfold reconStepC
        rw [if_pos hm]
      rw [hid]
      exact ih d n
    · by_cases hfull : (fileExists d fp && decide (fileSize d fp > 0)) = true
      · have hid : reconStepC fp (d, n) m = (removeFile d m, n) := by
          unfold reconStepC
          rw [if_neg hm, if_pos hfull]
        rw [hid]
        exact ih _ n
      · by_cases hren : fileSize d m > 0
        · have hid : reconStepC fp (d, n) m = (renameFile d m fp, n + 1) := by
            unfold reconStepC
            rw [if_neg hm, if_neg hfull, if_pos hren]
          rw [hid]
          obtain ⟨c, hc, hlen⟩ := fileSize_pos_getFile d m hren
          have hdst : getFile (renameFile d m fp) fp = some c :=
            getFile_renameFile_dst d m fp c hc
          have hpos : 0 < fileSize (renameFile d m fp) fp := by
            unfold fileSize
            rw [hdst]
            simpa using hlen
          rw [reconcileC_count_stays fp ms _ _ hpos]
        · have hid : reconStepC fp (d, n) m = (d, n) := by
            unfold reconStepC
            rw [if_neg hm, if_neg hfull, if_neg hren]
          rw [hid]
          exact ih d n

theorem getFile_isSome_mem_keys (d : Disk) (f : PStr) :
    getFile d f ≠ none → f ∈ d.map (·.1) := by
  induction d with
  | nil => intro h; simp [getFile] at h
  | cons e d ih =>
    obtain ⟨g, b⟩ := e
    intro h
    by_cases hg : g = f
    · simp [hg]
    · rw [getFile, if_neg hg] at h
      simpa using Or.inr (ih h)

theorem mem_globList (d : Disk) (i : Nat) (f : PStr) :
    f ∈ globList d i ↔ f ∈ d.map (·.1) ∧ containsSubL f (globPat i) = true := by
  simp [globList, List.mem_filter]

/-! ## Transfer-loop lemmas -/

theorem dlLoopMain_429 (bs : Nat → List Nat) (fp : PStr) (fb : Bool) :
    ∀ (rem a k : Nat) (sleeps : List Nat) (d : Disk),
      dlLoopMain (fun j => Resp.ok 429 (bs j)) fp fb rem a k sleeps d
        = ⟨false, k + rem, sleeps ++ sleeps429 rem a, d⟩ := by
  intro rem
  induction rem with
  | zero =>
    intro a k sleeps d
    simp [dlLoopMain, sleeps429]
  | succ rem ih =>
    intro a k sleeps d
    have hstep : dlLoopMain (fun j => Resp.ok 429 (bs j)) fp fb (rem + 1) a k sleeps d
        = dlLoopMain (fun j => Resp.ok 429 (bs j)) fp fb rem (a + 1) (k + 1)
            (sleeps ++ [(a + 1) * 10]) d := by
      simp [dlLoopMain]
    rw [hstep, ih]
    simp [sleeps429]
    omega

theorem dlLoopMain_exc429 (fp : PStr) (fb : Bool) :
    ∀ (rem a k : Nat) (sleeps : List Nat) (d : Disk),
      dlLoopMain (fun _ => Resp.exc true) fp fb rem a k sleeps d
        = ⟨false, k + rem, sleeps ++ sleeps429 rem a, d⟩ := by
  intro rem
  induction rem with
  | zero =>
    intro a k sleeps d
    simp [dlLoopMain, sleeps429]
  | succ rem ih =>
    intro a k sleeps d
    have hstep : dlLoopMain (fun _ => Resp.exc true) fp fb (rem + 1) a k sleeps d
        = dlLoopMain (fun _ => Resp.exc true) fp fb rem (a + 1) (k + 1)
            (sleeps ++ [(a + 1) * 10]) d := by
      simp [dlLoopMain]
    rw [hstep, ih]
    simp [sleeps429]
    omega

theorem dlLoopColl_429 (bs : Nat → List Nat) (fp : PStr) (fb : Bool) :
    ∀ (rem a k : Nat) (sleeps : List Nat) (d : Disk),
      dlLoopColl (fun j => Resp.ok 429 (bs j)) fp fb rem a k sleeps d
        = ⟨false, k + rem, sleeps ++ sleeps429 rem a, d⟩ := by
  intro rem
  induction rem with
  | zero =>
    intro a k sleeps d
    simp [dlLoopColl, sleeps429]
  | succ rem ih =>
    intro a k sleeps d
    have hstep : dlLoopColl (fun j => Resp.ok 429 (bs j)) fp fb (rem + 1) a k sleeps d
        = dlLoopColl (fun j => Resp.ok 429 (bs j)) fp fb rem (a + 1) (k + 1)
            (sleeps ++ [(a + 1) * 10]) d := by
      simp [dlLoopColl]
    rw [hstep, ih]
    simp [sleeps429]
    omega

theorem dlLoopColl_exc429 (fp : PStr) (fb : Bool) :
    ∀ (rem a k : Nat) (sleeps : List Nat) (d : Disk),
      dlLoopColl (fun _ => Resp.exc true) fp fb rem a k sleeps d
        = ⟨false, k + rem, sleeps ++ sleeps429 rem a, d⟩ := by
  intro rem
  induction rem with
  | zero =>
    intro a k sleeps d
    simp [dlLoopColl, sleeps429]
  | succ rem ih =>
    intro a k sleeps d
    have hstep : dlLoopColl (fun _ => Resp.exc true) fp fb (rem + 1) a k sleeps d
        = dlLoopColl (fun _ => Resp.exc true) fp fb rem (a + 1) (k + 1)
            (sleeps ++ [(a + 1) * 10]) d := by
      simp [dlLoopColl]
    rw [hstep, ih]
    simp [sleeps429]
    omega

/-- The main transfer loop only ever returns success after verifying that
the written target file is non-empty. -/
theorem dlLoopMain_success_size (api : Api) (fp : PStr) (fb : Bool) :
    ∀ (rem a k : Nat) (sleeps : List Nat) (d : Disk),
      (dlLoopMain api fp fb rem a k sleeps d).success = true →
      0 < fileSize (dlLoopMain api fp fb rem a k sleeps d).disk fp := by
  intro rem
  induction rem with
  | zero =>
    intro a k sleeps d h
    simp [dlLoopMain] at h
  | succ rem ih =>
    intro a k sleeps d
    cases hk : api k with
    | exc t =>
      simp only [dlLoopMain, hk]
      exact ih _ _ _ _
    | ok s b =>
      simp only [dlLoopMain, hk]
      split
      · exact ih _ _ _ _
      · split
        · cases hk2 : api (k + 1) with
          | exc t2 =>
            simp only [hk2]
            exact ih _ _ _ _
          | ok s2 b2 =>
            simp only [hk2]
            split
            · exact ih _ _ _ _
            · split
              · split
                · next hb2 =>
                  intro _
                  unfold fileSize
                  rw [getFile_setFile_self]
                  simpa using hb2
                · exact ih _ _ _ _
              · exact ih _ _ _ _
        · split
          · split
            · next hb =>
              intro _
              unfold fileSize
              rw [getFile_setFile_self]
              simpa using hb
            · exact ih _ _ _ _
          · exact ih _ _ _ _

/-- The main transfer loop never touches a file other than the target. -/
theorem dlLoopMain_disk_other (api : Api) (fp : PStr) (fb : Bool) (f : PStr)
    (hf : f ≠ fp) :
    ∀ (rem a k : Nat) (sleeps : List Nat) (d : Disk),
      getFile (dlLoopMain api fp fb rem a k sleeps d).disk f = getFile d f := by
  intro rem
  induction rem with
  | zero =>
    intro a k sleeps d
    simp [dlLoopMain]
  | succ rem ih =>
    intro a k sleeps d
    cases hk : api k with
    | exc t =>
      simp only [dlLoopMain, hk]
      exact ih _ _ _ _
    | ok s b =>
      simp only [dlLoopMain, hk]
      split
      · exact ih _ _ _ _
      · split
        · cases hk2 : api (k + 1) with
          | exc t2 =>
            simp only [hk2]
            exact ih _ _ _ _
          | ok s2 b2 =>
            simp only [hk2]
            split
            · exact ih _ _ _ _
            · split
              · split
                · exact getFile_setFile_ne d fp f b2 hf
                · rw [ih _ _ _ _]
                  exact getFile_setFile_ne d fp f b2 hf
              · exact ih _ _ _ _
        · split
          · split
            · exact getFile_setFile_ne d fp f b hf
            · rw [ih _ _ _ _]
              exact getFile_setFile_ne d fp f b hf
          · exact ih _ _ _ _

/-! ## `download_image` level lemmas (main variant) -/

theorem downloadImageMain_success_size (img : Img) (d : Disk) (api : Api) :
    (downloadImageMain img d api).success = true →
    0 < fileSize (downloadImageMain img d api).disk (filenameMain img) := by
  simp only [downloadImageMain]
  by_cases hurl : img.url = []
  · rw [if_pos hurl]
    intro h
    simp at h
  · rw [if_neg hurl]
    by_cases hpres : (fileExists (reconcile d (filenameMain img) (globList d img.id))
        (filenameMain img)
        && decide (fileSize (reconcile d (filenameMain img) (globList d img.id))
            (filenameMain img) > 0)) = true
    · rw [if_pos hpres]
      intro _
      have h2 := ((Bool.and_eq_true _ _).mp hpres).2
      simpa using of_decide_eq_true h2
    · rw [if_neg hpres]
      exact dlLoopMain_success_size _ _ _ _ _ _ _ _

theorem downloadImageMain_matches_empty (img : Img) (d : Disk) (api : Api) :
    (downloadImageMain img d api).success = true →
    ∀ f, f ≠ filenameMain img → containsSubL f (globPat img.id) = true →
      fileSize (downloadImageMain img d api).disk f = 0 := by
  simp only [downloadImageMain]
  by_cases hurl : img.url = []
  · rw [if_pos hurl]
    intro h
    simp at h
  · rw [if_neg hurl]
    have hbase : ∀ f, f ≠ filenameMain img → containsSubL f (globPat img.id) = true →
        fileSize (reconcile d (filenameMain img) (globList d img.id)) f = 0 := by
      intro f hf hpat
      by_cases hmem : f ∈ globList d img.id
      · exact reconcile_matches_empty (filenameMain img) f hf _ d hmem
      · have hnone : getFile d f = none := by
          by_cases hg : getFile d f = none
          · exact hg
          · exact absurd ((mem_globList d img.id f).mpr
              ⟨getFile_isSome_mem_keys d f hg, hpat⟩) hmem
        have := reconcile_none (filenameMain img) f hf (globList d img.id) d hnone
        unfold fileSize
        rw [this]
        rfl
    by_cases hpres : (fileExists (reconcile d (filenameMain img) (globList d img.id))
        (filenameMain img)
        && decide (fileSize (reconcile d (filenameMain img) (globList d img.id))
            (filenameMain img) > 0)) = true
    · rw [if_pos hpres]
      intro _ f hf hpat
      exact hbase f hf hpat
    · rw [if_neg hpres]
      intro _ f hf hpat
      have hother := dlLoopMain_disk_other api (filenameMain img)
        (canonicalUrlMain img ≠ img.url && startsWithL img.url (pstr "http"))
        f hf 10 0 0 [] (reconcile d (filenameMain img) (globList d img.id))
      have := hbase f hf hpat
      unfold fileSize at *
      rw [hother]
      exact this

/-! ## Merge lemmas -/

theorem dictFind_dictInsert (k : Nat) (v : Img) :
    ∀ (m : List (Nat × Img)) (k2 : Nat),
      dictFind (dictInsert m k v) k2 = if k = k2 then some v else dictFind m k2 := by
  intro m
  induction m with
  | nil =>
    intro k2
    simp [dictInsert, dictFind]
  | cons e m ih =>
    intro k2
    obtain ⟨k3, v3⟩ := e
    by_cases h3 : k3 = k
    · subst h3
      by_cases h2 : k3 = k2 <;> simp [dictInsert, dictFind, h2]
    · rw [dictInsert, if_neg h3]
      by_cases h2 : k3 = k2
      · have hkk2 : ¬k = k2 := fun h => h3 (h2.trans h.symm)
        simp [dictFind, h2, hkk2]
      · simp [dictFind, h2, ih]

theorem dictFind_append_single (k j : Nat) (v : Img) :
    ∀ (m : List (Nat × Img)),
      dictFind (m ++ [(j, v)]) k
        = match dictFind m k with
          | some w => some w
          | none => if j = k then some v else none := by
  intro m
  induction m with
  | nil => simp [dictFind]
  | cons e m ih =>
    obtain ⟨k2, v2⟩ := e
    by_cases h2 : k2 = k <;> simp [dictFind, h2, ih]

theorem dictFind_eq_none_iff (k : Nat) :
    ∀ (m : List (Nat × Img)), dictFind m k = none ↔ k ∉ m.map Prod.fst := by
  intro m
  induction m with
  | nil => simp [dictFind]
  | cons e m ih =>
    obtain ⟨k2, v2⟩ := e
    by_cases h2 : k2 = k
    · subst h2
      simp [dictFind]
    · rw [dictFind, if_neg h2]
      simp only [List.map_cons, List.mem_cons]
      rw [ih]
      constructor
      · intro h hmem
        rcases hmem with h3 | h3
        · exact h2 h3.symm
        · exact h h3
      · intro h h3
        exact h (Or.inr h3)

theorem keys_dictInsert (k : Nat) (v : Img) :
    ∀ (m : List (Nat × Img)),
      (dictInsert m k v).map Prod.fst
        = if k ∈ m.map Prod.fst then m.map Prod.fst else m.map Prod.fst ++ [k] := by
  intro m
  induction m with
  | nil => simp [dictInsert]
  | cons e m ih =>
    obtain ⟨k2, v2⟩ := e
    by_cases h2 : k2 = k
    · subst h2
      simp [dictInsert]
    · simp only [dictInsert, if_neg h2, List.map_cons]
      by_cases hm : k ∈ m.map Prod.fst
      · rw [ih, if_pos hm]
        have : k ∈ k2 :: m.map Prod.fst := List.mem_cons_of_mem _ hm
        simp [this]
      · rw [ih, if_neg hm]
        have hknot : k ∉ k2 :: m.map Prod.fst := by
          intro hmem
          rcases List.mem_cons.mp hmem with h | h
          · exact h2 h.symm
          · exact hm h
        simp [hknot]

theorem nodup_keys_dictInsert (k : Nat) (v : Img) (m : List (Nat × Img))
    (h : (m.map Prod.fst).Nodup) : ((dictInsert m k v).map Prod.fst).Nodup := by
  rw [keys_dictInsert]
  by_cases hm : k ∈ m.map Prod.fst
  · rw [if_pos hm]
    exact h
  · rw [if_neg hm]
    simp [List.nodup_append, h, hm]

theorem nodup_keys_mergeMap (images posts : List Img) :
    ((mergeMap images posts).map Prod.fst).Nodup := by
  unfold mergeMap
  have h0 : ∀ (l : List Img) (m : List (Nat × Img)), (m.map Prod.fst).Nodup →
      ((l.foldl (fun m i => dictInsert m i.id i) m).map Prod.fst).Nodup := by
    intro l
    induction l with
    | nil => intro m h; exact h
    | cons i l ih =>
      intro m h
      exact ih _ (nodup_keys_dictInsert i.id i m h)
  have h1 : ∀ (l : List Img) (m : List (Nat × Img)), (m.map Prod.fst).Nodup →
      ((l.foldl (fun m i => if (dictFind m i.id).isSome then m
        else m ++ [(i.id, i)]) m).map Prod.fst).Nodup := by
    intro l
    induction l with
    | nil => intro m h; exact h
    | cons i l ih =>
      intro m h
      by_cases hs : (dictFind m i.id).isSome
      · simpa [hs] using ih m h
      · have hnone : dictFind m i.id = none := by
          cases hfind : dictFind m i.id
          · rfl
          · rw [hfind] at hs; simp at hs
        have hnot : i.id ∉ m.map Prod.fst := (dictFind_eq_none_iff i.id m).mp hnone
        have : ((m ++ [(i.id, i)]).map Prod.fst).Nodup := by
          simp [List.nodup_append, h, hnot]
        simpa [hs] using ih _ this
  exact h1 _ _ (h0 _ _ (by simp))

theorem snd_id_mergeMap (images posts : List Img) :
    ∀ p ∈ mergeMap images posts, p.2.id = p.1 := by
  unfold mergeMap
  have hins : ∀ (k : Nat) (v : Img) (m : List (Nat × Img)), v.id = k →
      (∀ p ∈ m, p.2.id = p.1) → ∀ p ∈ dictInsert m k v, p.2.id = p.1 := by
    intro k v m hv
    induction m with
    | nil =>
      intro _ p hp
      simp [dictInsert] at hp
      subst hp
      exact hv
    | cons e m ih =>
      obtain ⟨k2, v2⟩ := e
      intro hall p hp
      by_cases h2 : k2 = k
      · rw [dictInsert, if_pos h2] at hp
        rcases List.mem_cons.mp hp with hp | hp
        · subst hp
          exact hv
        · exact hall p (List.mem_cons_of_mem _ hp)
      · rw [dictInsert, if_neg h2] at hp
        rcases List.mem_cons.mp hp with hp | hp
        · subst hp
          exact hall _ (List.mem_cons_self _ _)
        · exact ih (fun q hq => hall q (List.mem_cons_of_mem _ hq)) p hp
  have h0 : ∀ (l : List Img) (m : List (Nat × Img)), (∀ p ∈ m, p.2.id = p.1) →
      ∀ p ∈ l.foldl (fun m i => dictInsert m i.id i) m, p.2.id = p.1 := by
    intro l
    induction l with
    | nil => intro m h; exact h
    | cons i l ih =>
      intro m h
      exact ih _ (hins i.id i m rfl h)
  have h1 : ∀ (l : List Img) (m : List (Nat × Img)), (∀ p ∈ m, p.2.id = p.1) →
      ∀ p ∈ l.foldl (fun m i => if (dictFind m i.id).isSome then m
        else m ++ [(i.id, i)]) m, p.2.id = p.1 := by
    intro l
    induction l with
    | nil => intro m h; exact h
    | cons i l ih =>
      intro m h
      by_cases hs : (dictFind m i.id).isSome
      · simpa [hs] using ih m h
      · have hall : ∀ p ∈ m ++ [(i.id, i)], p.2.id = p.1 := by
          intro p hp
          rcases List.mem_append.mp hp with hp | hp
          · exact h p hp
          · simp at hp
            subst hp
            rfl
        simpa [hs] using ih _ hall
  exact h1 _ _ (h0 _ _ (by simp))

theorem dictFind_images_fold (k : Nat) :
    ∀ (l : List Img) (m : List (Nat × Img)),
      dictFind (l.foldl (fun m i => dictInsert m i.id i) m) k
        = match lastWithId k l with
          | some v => some v
          | none => dictFind m k := by
  intro l
  induction l with
  | nil => intro m; simp [lastWithId]
  | cons i l ih =>
    intro m
    rw [List.foldl_cons, ih, lastWithId]
    cases hl : lastWithId k l with
    | some v => rfl
    | none =>
      rw [dictFind_dictInsert]
      by_cases hk : i.id = k <;> simp [hk]

theorem dictFind_posts_fold (k : Nat) :
    ∀ (l : List Img) (m : List (Nat × Img)),
      dictFind (l.foldl (fun m i => if (dictFind m i.id).isSome then m
          else m ++ [(i.id, i)]) m) k
        = match dictFind m k with
          | some v => some v
          | none => firstWithId k l := by
  intro l
  induction l with
  | nil =>
    intro m
    rw [List.foldl_nil]
    cases dictFind m k <;> rfl
  | cons i l ih =>
    intro m
    rw [List.foldl_cons]
    by_cases hs : (dictFind m i.id).isSome
    · rw [if_pos hs, ih]
      cases hm : dictFind m k with
      | some v => rfl
      | none =>
        have hik : i.id ≠ k := by
          intro h
          rw [h, hm] at hs
          simp at hs
        rw [firstWithId, if_neg hik]
    · rw [if_neg hs, ih, dictFind_append_single]
      cases hm : dictFind m k with
      | some v => rfl
      | none =>
        rw [firstWithId]
        by_cases hik : i.id = k <;> simp [hik]

theorem dictFind_mergeMap (images posts : List Img) (k : Nat) :
    dictFind (mergeMap images posts) k
      = match lastWithId k images with
        | some v => some v
        | none => firstWithId k posts := by
  unfold mergeMap
  rw [dictFind_posts_fold, dictFind_images_fold]
  cases lastWithId k images with
  | some v => rfl
  | none => simp [dictFind]

theorem mem_dictFind (k : Nat) (v : Img) :
    ∀ (m : List (Nat × Img)), (m.map Prod.fst).Nodup →
      ((k, v) ∈ m ↔ dictFind m k = some v) := by
  intro m
  induction m with
  | nil => intro _; simp [dictFind]
  | cons e m ih =>
    obtain ⟨k2, v2⟩ := e
    intro hn
    have hn1 : (k2 :: m.map Prod.fst).Nodup := by simpa using hn
    have hn2 : (m.map Prod.fst).Nodup := hn1.of_cons
    have hk2 : k2 ∉ m.map Prod.fst := (List.nodup_cons.mp hn1).1
    constructor
    · intro hmem
      rcases List.mem_cons.mp hmem with h | h
      · have h1 : k2 = k := (congrArg Prod.fst h).symm
        have h2 : v2 = v := (congrArg Prod.snd h).symm
        rw [dictFind, if_pos h1, h2]
      · have hkm : k ∈ m.map Prod.fst :=
          List.mem_map_of_mem Prod.fst h
        have hne : k2 ≠ k := fun he => hk2 (he ▸ hkm)
        rw [dictFind, if_neg hne]
        exact (ih hn2).mp h
    · intro hfind
      rw [dictFind] at hfind
      by_cases h2 : k2 = k
      · rw [if_pos h2] at hfind
        have hv : v2 = v := by injection hfind
        subst hv h2
        exact List.mem_cons_self _ _
      · rw [if_neg h2] at hfind
        exact List.mem_cons_of_mem _ ((ih hn2).mpr hfind)

theorem mem_mergeItems (images posts : List Img) (img : Img) :
    img ∈ mergeItems images posts
      ↔ dictFind (mergeMap images posts) img.id = some img := by
  unfold mergeItems
  constructor
  · intro h
    obtain ⟨p, hp, hpe⟩ := List.mem_map.mp h
    obtain ⟨a, b⟩ := p
    have hid : b.id = a := snd_id_mergeMap images posts (a, b) hp
    have hb : b = img := hpe
    subst hb
    have heq : (b.id, b) = (a, b) := by rw [hid]
    rw [← heq] at hp
    exact (mem_dictFind b.id b _ (nodup_keys_mergeMap images posts)).mp hp
  · intro h
    have hmem := (mem_dictFind img.id img _ (nodup_keys_mergeMap images posts)).mpr h
    exact List.mem_map.mpr ⟨(img.id, img), hmem, rfl⟩

theorem nodup_ids_mergeItems (images posts : List Img) :
    ((mergeItems images posts).map Img.id).Nodup := by
  unfold mergeItems
  have : (mergeMap images posts).map (fun p => Img.id p.2)
      = (mergeMap images posts).map Prod.fst := by
    apply List.map_congr_left
    intro p hp
    exact snd_id_mergeMap images posts p hp
  rw [List.map_map]
  simpa [Function.comp] using this ▸ nodup_keys_mergeMap images posts

/-! ## Pagination-loop lemmas -/

/-- `get_posts` stops right after a page whose `nextCursor` equals the
cursor just used. -/
theorem getPostsLoop_cycle_guard (api : Nat → FetchOut PostPage)
    (isU : Bool) (qid : Int) (after : Option Int) (fuel k : Nat)
    (cursor : Option PStr) (acc : List Img) (p : PostPage)
    (hp : api k = FetchOut.page p) (hcur : p.nextCursor = cursor) :
    (getPostsLoop api isU qid after (fuel + 1) k cursor acc).2 = k + 1 := by
  simp only [getPostsLoop, hp]
  split
  · rfl
  · simp [hcur]

/-- `get_collection_images` stops right after a page whose `nextCursor`
equals the cursor just used. -/
theorem getCollectionLoop_cycle_guard (api : Nat → FetchOut Page)
    (fuel k : Nat) (cursor : Option PStr) (acc : List Img) (p : Page)
    (hp : api k = FetchOut.page p) (hcur : p.nextCursor = cursor) :
    (getCollectionLoop api (fuel + 1) k cursor acc).2 = k + 1 := by
  simp only [getCollectionLoop, hp]
  split
  · rfl
  · simp [hcur]

/-- `get_images` has no cycle guard: as long as every page carries a truthy
continuation cursor (even one identical to the cursor just used) and no
date bound is supplied, the loop keeps issuing one request per unit of
fuel, forever. -/
theorem getImagesLoop_no_guard (api : Nat → FetchOut Page)
    (isU : Bool) (qid : Int)
    (h : ∀ j, ∃ p, api j = FetchOut.page p ∧ cursorTruthy p.nextCursor = true) :
    ∀ (fuel k : Nat) (cursor : Option PStr) (acc : List Img),
      (getImagesLoop api isU qid none fuel k cursor acc).2 = k + fuel := by
  intro fuel
  induction fuel with
  | zero => intro k cursor acc; rfl
  | succ fuel ih =>
    intro k cursor acc
    obtain ⟨p, hp, ht⟩ := h k
    simp only [getImagesLoop, hp]
    rw [if_neg (by simp [ht]), if_neg (by simp [dateOptBreakImg])]
    rw [ih]
    omega

/-- When the page-level retry budget is exhausted, each pagination loop
returns the items accumulated so far (and stops). -/
theorem getImagesLoop_failed (api : Nat → FetchOut Page) (isU : Bool)
    (qid : Int) (after : Option Int) (fuel k : Nat) (cursor : Option PStr)
    (acc : List Img) (hp : api k = FetchOut.failed) :
    getImagesLoop api isU qid after (fuel + 1) k cursor acc = (acc, k + 1) := by
  simp only [getImagesLoop, hp]

theorem getPostsLoop_failed (api : Nat → FetchOut PostPage) (isU : Bool)
    (qid : Int) (after : Option Int) (fuel k : Nat) (cursor : Option PStr)
    (acc : List Img) (hp : api k = FetchOut.failed) :
    getPostsLoop api isU qid after (fuel + 1) k cursor acc = (acc, k + 1) := by
  simp only [getPostsLoop, hp]

theorem getCollectionLoop_failed (api : Nat → FetchOut Page) (fuel k : Nat)
    (cursor : Option PStr) (acc : List Img) (hp : api k = FetchOut.failed) :
    getCollectionLoop api (fuel + 1) k cursor acc = (acc, k + 1) := by
  simp only [getCollectionLoop, hp]

/-! ## Page-retry lemmas -/

theorem fetchRetryImages_5xx (sts : Nat → Nat)
    (h : ∀ a, 500 ≤ sts a ∧ sts a < 600) :
    ∀ (rem a : Nat) (sleeps : List Nat),
      fetchRetryImages (fun a => AttemptOut.http (sts a)) rem a sleeps
        = ⟨false, sleeps ++ sleeps5xx rem a⟩ := by
  intro rem
  induction rem with
  | zero =>
    intro a sleeps
    simp [fetchRetryImages, sleeps5xx]
  | succ rem ih =>
    intro a sleeps
    have hcond : (decide (500 ≤ sts a) && decide (sts a < 600)) = true := by
      simp [(h a).1, (h a).2]
    simp only [fetchRetryImages, hcond, if_pos]
    rw [ih]
    simp [sleeps5xx]

theorem fetchRetryPosts_5xx (sts : Nat → Nat)
    (h : ∀ a, 500 ≤ sts a ∧ sts a < 600) :
    ∀ (rem a : Nat) (sleeps : List Nat),
      fetchRetryPosts (fun a => AttemptOut.http (sts a)) rem a sleeps
        = ⟨false, sleeps ++ sleeps5xx rem a⟩ := by
  intro rem
  induction rem with
  | zero =>
    intro a sleeps
    simp [fetchRetryPosts, sleeps5xx]
  | succ rem ih =>
    intro a sleeps
    have hcond : (decide (500 ≤ sts a) && decide (sts a < 600)) = true := by
      simp [(h a).1, (h a).2]
    simp only [fetchRetryPosts, hcond, if_pos]
    rw [ih]
    simp [sleeps5xx]

/-! ## Ownership-filter propagation -/

/-- An item that survives the id-mode filter has a compatible owner. -/
theorem imageKept_ownership (qid : Int) (after : Option Int) (img : Img)
    (h : imageKept false qid after img = true) :
    img.userId = none ∨ img.userId = some qid := by
  unfold imageKept at h
  cases hu : img.userId with
  | none => exact Or.inl rfl
  | some u =>
    by_cases he : u = qid
    · exact Or.inr (by rw [he])
    · rw [hu] at h
      simp [he] at h

/-- Every item returned by the `get_images` loop in id-query mode has a
compatible owner (absent or equal to the queried id). -/
theorem getImagesLoop_ownership (api : Nat → FetchOut Page) (qid : Int)
    (after : Option Int) :
    ∀ (fuel k : Nat) (cursor : Option PStr) (acc : List Img),
      (∀ i ∈ acc, i.userId = none ∨ i.userId = some qid) →
      ∀ i ∈ (getImagesLoop api false qid after fuel k cursor acc).1,
        i.userId = none ∨ i.userId = some qid := by
  intro fuel
  induction fuel with
  | zero => intro k cursor acc h; exact h
  | succ fuel ih =>
    intro k cursor acc h
    cases hp : api k with
    | failed =>
      simp only [getImagesLoop, hp]
      exact h
    | page p =>
      simp only [getImagesLoop, hp]
      have hacc2 : ∀ i ∈ acc ++ p.items.filter (imageKept false qid after),
          i.userId = none ∨ i.userId = some qid := by
        intro i hi
        rcases List.mem_append.mp hi with hi | hi
        · exact h i hi
        · exact imageKept_ownership qid after i (List.of_mem_filter hi)
      split
      · exact hacc2
      · split
        · exact hacc2
        · exact ih _ _ _ hacc2

/-! ## Already-present short-circuit and empty-body behaviour -/

theorem downloadImageMain_already_present (img : Img) (d : Disk) (api : Api)
    (hurl : img.url ≠ [])
    (hpos : 0 < fileSize (reconcile d (filenameMain img) (globList d img.id))
      (filenameMain img)) :
    downloadImageMain img d api
      = ⟨true, 0, [], reconcile d (filenameMain img) (globList d img.id)⟩ := by
  obtain ⟨c, hc, _⟩ := fileSize_pos_getFile _ _ hpos
  have hex : fileExists (reconcile d (filenameMain img) (globList d img.id))
      (filenameMain img) = true := by
    simp [fileExists, hc]
  simp only [downloadImageMain]
  rw [if_neg hurl, if_pos (by simp [hex, hpos])]

theorem downloadImageColl_already_present (img : Img) (d : Disk) (api : Api)
    (hurl : img.url ≠ [])
    (hpos : 0 < fileSize (reconcile d (filenameColl img) (globList d img.id))
      (filenameColl img)) :
    downloadImageColl img d api
      = ⟨true, 0, [], reconcile d (filenameColl img) (globList d img.id)⟩ := by
  obtain ⟨c, hc, _⟩ := fileSize_pos_getFile _ _ hpos
  have hex : fileExists (reconcile d (filenameColl img) (globList d img.id))
      (filenameColl img) = true := by
    simp [fileExists, hc]
  simp only [downloadImageColl]
  rw [if_neg hurl, if_pos (by simp [hex, hpos])]

theorem setFile_setFile (d : Disk) (f : PStr) (b c : List Nat) :
    setFile (setFile d f b) f c = setFile d f c := by
  induction d with
  | nil => simp [setFile]
  | cons e d ih =>
    obtain ⟨g, b2⟩ := e
    by_cases h : g = f
    · simp [setFile, h]
    · simp [setFile, h, ih]

/-- A body-less HTTP 200 on every attempt: the main loop writes the empty
file, fails the size verification, retries through the whole budget and
returns failure. -/
theorem dlLoopMain_empty200 (fp : PStr) (fb : Bool) :
    ∀ (rem a k : Nat) (sleeps : List Nat) (d : Disk),
      dlLoopMain (fun _ => Resp.ok 200 []) fp fb (rem + 1) a k sleeps d
        = ⟨false, k + rem + 1, sleeps, setFile d fp []⟩ := by
  intro rem
  induction rem with
  | zero =>
    intro a k sleeps d
    simp [dlLoopMain]
  | succ rem ih =>
    intro a k sleeps d
    have hstep : dlLoopMain (fun _ => Resp.ok 200 []) fp fb (rem + 1 + 1) a k sleeps d
        = dlLoopMain (fun _ => Resp.ok 200 []) fp fb (rem + 1) (a + 1) (k + 1) sleeps
            (setFile d fp []) := by
      simp [dlLoopMain]
    rw [hstep, ih, setFile_setFile]
    have : k + 1 + rem + 1 = k + (rem + 1) + 1 := by omega
    rw [this]

/-- A first-response HTTP 200 makes the collection loop return success at
once, with the body written but never verified. -/
theorem dlLoopColl_200 (api : Api) (fp : PStr) (fb : Bool) (b : List Nat)
    (rem a k : Nat) (sleeps : List Nat) (d : Disk)
    (hk : api k = Resp.ok 200 b) :
    dlLoopColl api fp fb (rem + 1) a k sleeps d
      = ⟨true, k + 1, sleeps, setFile d fp b⟩ := by
  simp [dlLoopColl, hk]

/-! ## Claim C1 -/

/-- C1 counterexample: `get_images` does not stop when a page returns the
very cursor that was just used.  Against an endpoint that answers every
request with a non-empty batch and the constant cursor "c", the pagination
claim allows at most 2 requests (the initial page plus the one that first
repeats its cursor), yet the loop issues one request per unit of fuel —
5 requests with fuel 5 — so it never terminates on its own. -/
theorem c1_counterexample :
    (getImagesLoop
        (fun _ => FetchOut.page ⟨[{ id := 1, url := pstr "u" }], some (pstr "c")⟩)
        true 0 none 5 0 none []).2 = 5
    ∧ ¬(getImagesLoop
        (fun _ => FetchOut.page ⟨[{ id := 1, url := pstr "u" }], some (pstr "c")⟩)
        true 0 none 5 0 none []).2 ≤ 2 := by
  decide

/-- C1 (amended): `get_posts` and `get_collection_images` do carry the
stuck-cursor cycle guard — whenever a fetched page's `nextCursor` equals
the cursor just used, the loop returns right after that page.  `get_images`
has no such guard: it stops only on a falsy cursor, so against any endpoint
whose every page carries a truthy continuation cursor (in particular one
repeating the same cursor forever) it issues one request per unit of fuel,
without bound. -/
theorem c1_cycle_guard_amended :
    (∀ (api : Nat → FetchOut PostPage) (isU : Bool) (qid : Int)
        (after : Option Int) (fuel k : Nat) (cursor : Option PStr)
        (acc : List Img) (p : PostPage),
        api k = FetchOut.page p → p.nextCursor = cursor →
        (getPostsLoop api isU qid after (fuel + 1) k cursor acc).2 = k + 1)
    ∧ (∀ (api : Nat → FetchOut Page) (fuel k : Nat) (cursor : Option PStr)
        (acc : List Img) (p : Page),
        api k = FetchOut.page p → p.nextCursor = cursor →
        (getCollectionLoop api (fuel + 1) k cursor acc).2 = k + 1)
    ∧ (∀ (api : Nat → FetchOut Page) (isU : Bool) (qid : Int),
        (∀ j, ∃ p, api j = FetchOut.page p ∧ cursorTruthy p.nextCursor = true) →
        ∀ (fuel k : Nat) (cursor : Option PStr) (acc : List Img),
          (getImagesLoop api isU qid none fuel k cursor acc).2 = k + fuel) :=
  ⟨fun api isU qid after fuel k cursor acc p hp hcur =>
      getPostsLoop_cycle_guard api isU qid after fuel k cursor acc p hp hcur,
    fun api fuel k cursor acc p hp hcur =>
      getCollectionLoop_cycle_guard api fuel k cursor acc p hp hcur,
    fun api isU qid h fuel k cursor acc =>
      getImagesLoop_no_guard api isU qid h fuel k cursor acc⟩

/-- C1 witness: the amended theorem applied to concrete stuck endpoints. -/
theorem c1_cycle_guard_amended_witness :
    (getPostsLoop
        (fun _ => FetchOut.page
          ⟨[{ id := 7, images := [{ id := 1, url := pstr "u" }] }], some (pstr "c")⟩)
        true 0 none (3 + 1) 1 (some (pstr "c")) []).2 = 1 + 1
    ∧ (getCollectionLoop
        (fun _ => FetchOut.page ⟨[{ id := 1, url := pstr "u" }], some (pstr "c")⟩)
        (3 + 1) 1 (some (pstr "c")) []).2 = 1 + 1
    ∧ (getImagesLoop
        (fun _ => FetchOut.page ⟨[{ id := 1, url := pstr "u" }], some (pstr "c")⟩)
        true 0 none 4 0 none []).2 = 0 + 4 :=
  ⟨c1_cycle_guard_amended.1 _ true 0 none 3 1 (some (pstr "c")) [] _ rfl rfl,
    c1_cycle_guard_amended.2.1 _ 3 1 (some (pstr "c")) [] _ rfl rfl,
    c1_cycle_guard_amended.2.2 _ true 0
      (fun _ => ⟨⟨[{ id := 1, url := pstr "u" }], some (pstr "c")⟩, rfl, by decide⟩)
      4 0 none []⟩

/-! ## Claim C4 -/

/-- C4 counterexample: the merge is built with a Python dict comprehension
over the direct-items sequence, so for a duplicated id *within* that
sequence the **last** occurrence wins, not the first: merging
`[itemA(id 1), itemB(id 1)]` with no post items retains `itemB`. -/
theorem c4_counterexample :
    mergeItems [{ id := 1, url := pstr "a" }, { id := 1, url := pstr "b" }] []
      = [{ id := 1, url := pstr "b" }]
    ∧ ({ id := 1, url := pstr "b" } : Img) ≠ { id := 1, url := pstr "a" } := by
  decide

/-- C4 (amended): the merged output never contains two items sharing an id;
an item of the merged set with id `k` is exactly the *last* occurrence of
`k` in the direct-items sequence when `k` occurs there, and otherwise the
first occurrence of `k` in the container-derived sequence — container items
never overwrite direct items. -/
theorem c4_merge_amended :
    (∀ images posts : List Img, ((mergeItems images posts).map Img.id).Nodup)
    ∧ (∀ (images posts : List Img) (k : Nat),
        dictFind (mergeMap images posts) k
          = match lastWithId k images with
            | some v => some v
            | none => firstWithId k posts)
    ∧ (∀ (images posts : List Img) (img : Img),
        img ∈ mergeItems images posts
          ↔ dictFind (mergeMap images posts) img.id = some img) :=
  ⟨nodup_ids_mergeItems, dictFind_mergeMap, mem_mergeItems⟩

/-! ## Claim C7 -/

/-- C7 counterexample: a transient network failure whose text names no 5xx
code is retried by `get_posts` with backoff `(attempt+1) * 2` seconds —
`[2, 4, 6, 8, 10]` over the five attempts — not the claimed
`(attempt+1) * 5`. -/
theorem c7_counterexample :
    (fetchPagePosts (fun _ => AttemptOut.netexc false)).sleeps = [2, 4, 6, 8, 10]
    ∧ (fetchPagePosts (fun _ => AttemptOut.netexc false)).sleeps
        ≠ [5, 10, 15, 20, 25] := by
  decide

/-- C7 (amended): an HTTP 5xx **status** is retried on the same page up to
5 times with backoff `(attempt+1) * 5` in all fetchers, after which the
page fetch fails; a failed page fetch makes each pagination loop return the
items accumulated from earlier pages (a partial result, not an error).  A
network failure signalled by an exception without a 5xx code in its text is
retried within the same 5-attempt budget but with *no* backoff in
`get_images`/`get_collection_images` and with backoff `(attempt+1) * 2` in
`get_posts`. -/
theorem c7_retry_amended :
    (∀ sts : Nat → Nat, (∀ a, 500 ≤ sts a ∧ sts a < 600) →
        fetchPageImages (fun a => AttemptOut.http (sts a))
            = ⟨false, [5, 10, 15, 20, 25]⟩
        ∧ fetchPagePosts (fun a => AttemptOut.http (sts a))
            = ⟨false, [5, 10, 15, 20, 25]⟩)
    ∧ (∀ (api : Nat → FetchOut Page) (isU : Bool) (qid : Int)
        (after : Option Int) (fuel k : Nat) (cursor : Option PStr)
        (acc : List Img), api k = FetchOut.failed →
        getImagesLoop api isU qid after (fuel + 1) k cursor acc = (acc, k + 1))
    ∧ (∀ (api : Nat → FetchOut PostPage) (isU : Bool) (qid : Int)
        (after : Option Int) (fuel k : Nat) (cursor : Option PStr)
        (acc : List Img), api k = FetchOut.failed →
        getPostsLoop api isU qid after (fuel + 1) k cursor acc = (acc, k + 1))
    ∧ (∀ (api : Nat → FetchOut Page) (fuel k : Nat) (cursor : Option PStr)
        (acc : List Img), api k = FetchOut.failed →
        getCollectionLoop api (fuel + 1) k cursor acc = (acc, k + 1))
    ∧ fetchPageImages (fun _ => AttemptOut.netexc false) = ⟨false, []⟩
    ∧ fetchPagePosts (fun _ => AttemptOut.netexc false) = ⟨false, [2, 4, 6, 8, 10]⟩ := by
  refine ⟨?_, ?_, ?_, ?_, by decide, by decide⟩
  · intro sts h
    constructor
    · unfold fetchPageImages
      rw [fetchRetryImages_5xx sts h]
      rfl
    · unfold fetchPagePosts
      rw [fetchRetryPosts_5xx sts h]
      rfl
  · intro api isU qid after fuel k cursor acc hp
    exact getImagesLoop_failed api isU qid after fuel k cursor acc hp
  · intro api isU qid after fuel k cursor acc hp
    exact getPostsLoop_failed api isU qid after fuel k cursor acc hp
  · intro api fuel k cursor acc hp
    exact getCollectionLoop_failed api fuel k cursor acc hp

/-- C7 witness: the amended theorem applied to an all-503 endpoint and to a
fetch that fails on its very first page. -/
theorem c7_retry_amended_witness :
    fetchPageImages (fun _ => AttemptOut.http 503) = ⟨false, [5, 10, 15, 20, 25]⟩
    ∧ fetchPagePosts (fun _ => AttemptOut.http 503) = ⟨false, [5, 10, 15, 20, 25]⟩
    ∧ getImagesLoop (fun _ => FetchOut.failed) true 0 none (2 + 1) 0 none
        [{ id := 1, url := pstr "u" }] = ([{ id := 1, url := pstr "u" }], 0 + 1) :=
  ⟨(c7_retry_amended.1 (fun _ => 503) (by intro a; norm_num)).1,
    (c7_retry_amended.1 (fun _ => 503) (by intro a; norm_num)).2,
    c7_retry_amended.2.1 _ true 0 none 2 0 none [{ id := 1, url := pstr "u" }] rfl⟩

/-! ## Claim C8 -/

/-- C8: in id-query mode (`is_username` false) an item or post whose
embedded `userId` is present and differs from the queried id is dropped;
an item with an absent `userId` passes the ownership stage (its fate rests
solely with the orthogonal date filter); in username-query mode the
ownership filter is inert.  Consequently every item returned by the
`get_images` pagination loop in id mode has an absent or matching owner. -/
theorem c8_ownership_filter :
    (∀ (qid : Int) (after : Option Int) (img : Img) (u : Int),
        img.userId = some u → u ≠ qid → imageKept false qid after img = false)
    ∧ (∀ (qid : Int) (after : Option Int) (img : Img), img.userId = none →
        imageKept false qid after img = dateKeptImg after img)
    ∧ (∀ (qid : Int) (after : Option Int) (img : Img),
        imageKept true qid after img = dateKeptImg after img)
    ∧ (∀ (qid : Int) (after : Option Int) (p : Post) (u : Int),
        p.userId = some u → u ≠ qid → postKept false qid after p = false)
    ∧ (∀ (qid : Int) (after : Option Int) (p : Post), p.userId = none →
        postKept false qid after p = dateKeptPost after p)
    ∧ (∀ (qid : Int) (after : Option Int) (p : Post),
        postKept true qid after p = dateKeptPost after p)
    ∧ (∀ (api : Nat → FetchOut Page) (qid : Int) (after : Option Int)
        (fuel k : Nat) (cursor : Option PStr) (acc : List Img),
        (∀ i ∈ acc, i.userId = none ∨ i.userId = some qid) →
        ∀ i ∈ (getImagesLoop api false qid after fuel k cursor acc).1,
          i.userId = none ∨ i.userId = some qid) := by
  refine ⟨?_, ?_, ?_, ?_, ?_, ?_, ?_⟩
  · intro qid after img u hu hne
    simp [imageKept, hu, hne]
  · intro qid after img hu
    simp [imageKept, hu]
  · intro qid after img
    simp [imageKept]
  · intro qid after p u hu hne
    simp [postKept, hu, hne]
  · intro qid after p hu
    simp [postKept, hu]
  · intro qid after p
    simp [postKept]
  · intro api qid after fuel k cursor acc h
    exact getImagesLoop_ownership api qid after fuel k cursor acc h

/-- C8 witness: the filter at concrete items. -/
theorem c8_ownership_filter_witness :
    imageKept false 3 none { id := 1, url := pstr "u", userId := some 4 } = false
    ∧ imageKept false 3 none { id := 1, url := pstr "u" }
        = dateKeptImg none { id := 1, url := pstr "u" }
    ∧ postKept false 3 none { id := 2, userId := some 4 } = false
    ∧ (∀ i ∈ (getImagesLoop
          (fun _ => FetchOut.page
            ⟨[{ id := 1, url := pstr "u", userId := some 4 },
              { id := 2, url := pstr "v", userId := some 3 }], none⟩)
          false 3 none 5 0 none []).1,
        i.userId = none ∨ i.userId = some 3) :=
  ⟨c8_ownership_filter.1 3 none _ 4 rfl (by decide),
    c8_ownership_filter.2.1 3 none _ rfl,
    c8_ownership_filter.2.2.2.1 3 none _ 4 rfl (by decide),
    c8_ownership_filter.2.2.2.2.2.2 _ 3 none 5 0 none [] (by intro i hi; cases hi)⟩

/-! ## Claim C9 -/

/-- C9: an item whose `type` field is `video` always resolves to extension
`mp4`, in both `download_image` variants, whatever the URL's trailing
dot-suffix; in particular the pinned example — kind video, no mimeType, a
URL ending in `.webm` — resolves to `mp4`. -/
theorem c9_video_extension :
    (∀ (url : PStr) (mt : Option PStr),
        extMain url (some (pstr "video")) = pstr "mp4"
        ∧ extColl url mt (some (pstr "video")) = pstr "mp4")
    ∧ extMain (pstr "https://a/b.webm") (some (pstr "video")) = pstr "mp4"
    ∧ extColl (pstr "https://a/b.webm") none (some (pstr "video")) = pstr "mp4" := by
  refine ⟨?_, by decide, by decide⟩
  intro url mt
  constructor
  · simp [extMain]
  · simp [extColl]

/-! ## Claim C2 -/

/-- C2 counterexample: running the download twice is not literally
idempotent on the directory.  Starting from a stale *empty* duplicate
`old_5.png`, the first run leaves it in place (an empty match is neither
renamed nor deleted while the target is missing) and downloads
`new_5.png`; the second run then deletes the stale empty duplicate, so the
on-disk state after run 2 differs from the state after run 1 even though
run 2 performed no network request. -/
theorem c2_counterexample :
    (downloadImageMain { id := 5, url := pstr "https://h/x.png", name := some (pstr "new") }
        [(pstr "old_5.png", [])] (fun _ => Resp.ok 200 [1])).disk
      = [(pstr "old_5.png", []), (pstr "new_5.png", [1])]
    ∧ downloadImageMain { id := 5, url := pstr "https://h/x.png", name := some (pstr "new") }
        [(pstr "old_5.png", []), (pstr "new_5.png", [1])] (fun _ => Resp.exc false)
      = ⟨true, 0, [], [(pstr "new_5.png", [1])]⟩
    ∧ [(pstr "new_5.png", [1])] ≠ [(pstr "old_5.png", []), (pstr "new_5.png", [1])] := by
  decide

/-- C2 (amended): when the computed target exists non-empty after
reconciliation, both `download_image` variants return success with zero
network requests and the reconciled directory.  A successful main-variant
run followed by a second run on the unchanged item yields success with
zero requests again, and the second run preserves every non-empty file
byte-for-byte and creates no new content — it may only delete stale empty
duplicate files. -/
theorem c2_idempotent_amended (img : Img) (d : Disk) (api api2 : Api) :
    (img.url ≠ [] →
      0 < fileSize (reconcile d (filenameMain img) (globList d img.id))
          (filenameMain img) →
      downloadImageMain img d api
        = ⟨true, 0, [], reconcile d (filenameMain img) (globList d img.id)⟩)
    ∧ (img.url ≠ [] →
      0 < fileSize (reconcile d (filenameColl img) (globList d img.id))
          (filenameColl img) →
      downloadImageColl img d api
        = ⟨true, 0, [], reconcile d (filenameColl img) (globList d img.id)⟩)
    ∧ ((downloadImageMain img d api).success = true →
      (downloadImageMain img (downloadImageMain img d api).disk api2).success = true
      ∧ (downloadImageMain img (downloadImageMain img d api).disk api2).requests = 0
      ∧ ∀ f, (0 < fileSize (downloadImageMain img d api).disk f →
            getFile (downloadImageMain img (downloadImageMain img d api).disk api2).disk f
              = getFile (downloadImageMain img d api).disk f)
          ∧ (fileSize (downloadImageMain img d api).disk f = 0 →
            fileSize (downloadImageMain img (downloadImageMain img d api).disk api2).disk f
              = 0)) := by
  refine ⟨fun hurl hpos => downloadImageMain_already_present img d api hurl hpos,
    fun hurl hpos => downloadImageColl_already_present img d api hurl hpos, ?_⟩
  intro hs
  have hurl : img.url ≠ [] := by
    intro he
    have hfail : (downloadImageMain img d api).success = false := by
      simp only [downloadImageMain]
      rw [if_pos he]
    rw [hfail] at hs
    cases hs
  have hfp : 0 < fileSize (downloadImageMain img d api).disk (filenameMain img) :=
    downloadImageMain_success_size img d api hs
  have hmt : ∀ f, f ≠ filenameMain img → containsSubL f (globPat img.id) = true →
      fileSize (downloadImageMain img d api).disk f = 0 :=
    downloadImageMain_matches_empty img d api hs
  have hpres2 : 0 < fileSize
      (reconcile (downloadImageMain img d api).disk (filenameMain img)
        (globList (downloadImageMain img d api).disk img.id)) (filenameMain img) := by
    have hpre := reconcile_target_preserved (filenameMain img)
      (globList (downloadImageMain img d api).disk img.id)
      (downloadImageMain img d api).disk hfp
    rw [fileSize_eq_of_getFile_eq _ _ _ hpre]
    exact hfp
  have hrun2 : downloadImageMain img (downloadImageMain img d api).disk api2
      = ⟨true, 0, [],
          reconcile (downloadImageMain img d api).disk (filenameMain img)
            (globList (downloadImageMain img d api).disk img.id)⟩ :=
    downloadImageMain_already_present img _ api2 hurl hpres2
  rw [hrun2]
  refine ⟨rfl, rfl, ?_⟩
  intro f
  by_cases hffp : f = filenameMain img
  · constructor
    · intro _
      rw [hffp]
      exact reconcile_target_preserved (filenameMain img) _ _ hfp
    · intro h0
      rw [hffp] at h0
      exact absurd h0 (Nat.pos_iff_ne_zero.mp hfp)
  · by_cases hmem : f ∈ globList (downloadImageMain img d api).disk img.id
    · have hpat : containsSubL f (globPat img.id) = true :=
        ((mem_globList _ _ f).mp hmem).2
      have h0 : fileSize (downloadImageMain img d api).disk f = 0 := hmt f hffp hpat
      constructor
      · intro hposf
        exact absurd h0 (Nat.pos_iff_ne_zero.mp hposf)
      · intro _
        exact reconcile_nogrow (filenameMain img) f hffp _ _ h0
    · have huntouched := reconcile_untouched (filenameMain img) f hffp
        (globList (downloadImageMain img d api).disk img.id)
        (downloadImageMain img d api).disk hmem
      constructor
      · intro _
        exact huntouched
      · intro h0
        rw [fileSize_eq_of_getFile_eq _ _ _ huntouched]
        exact h0

/-- C2 witness: the amended theorem applied to a directory that already
holds a valid `new_5.png`, and to a fresh successful run followed by a
second run. -/
theorem c2_idempotent_amended_witness :
    downloadImageMain { id := 5, url := pstr "https://h/x.png", name := some (pstr "new") }
        [(pstr "new_5.png", [1])] (fun _ => Resp.exc false)
      = ⟨true, 0, [], [(pstr "new_5.png", [1])]⟩
    ∧ (downloadImageMain { id := 5, url := pstr "https://h/x.png", name := some (pstr "new") }
        ((downloadImageMain { id := 5, url := pstr "https://h/x.png", name := some (pstr "new") }
          [] (fun _ => Resp.ok 200 [1])).disk) (fun _ => Resp.exc false)).requests = 0 :=
  ⟨(c2_idempotent_amended { id := 5, url := pstr "https://h/x.png", name := some (pstr "new") }
      [(pstr "new_5.png", [1])] (fun _ => Resp.exc false) (fun _ => Resp.exc false)).1
      (by decide) (by decide),
    ((c2_idempotent_amended { id := 5, url := pstr "https://h/x.png", name := some (pstr "new") }
      [] (fun _ => Resp.ok 200 [1]) (fun _ => Resp.exc false)).2.2 (by decide)).2.1⟩

/-! ## Claim C3 -/

/-- C3: reconciliation correctness for an item with id `i` and target path
`fp`.  (1) At most one rename fires per pass.  (2) When the target is
already valid (non-empty), every glob match other than the target is
deleted.  (3) When the target is missing or empty, the first non-empty
match — every match before it being the target itself or empty — is
renamed onto the target with its bytes preserved.  (4) Afterwards, any file
other than the target whose name matches `*_i.*` is empty or absent: at
most one valid file for the id remains. -/
theorem c3_reconciliation (d : Disk) (i : Nat) (fp : PStr) :
    (reconcileC d fp (globList d i)).2 ≤ 1
    ∧ (0 < fileSize d fp →
        ∀ f ∈ globList d i, f ≠ fp →
          getFile (reconcile d fp (globList d i)) f = none)
    ∧ (∀ (ms1 : List PStr) (m : PStr) (ms2 : List PStr),
        globList d i = ms1 ++ m :: ms2 →
        (∀ x ∈ ms1, x = fp ∨ fileSize d x = 0) → m ≠ fp →
        0 < fileSize d m → fileSize d fp = 0 →
        getFile (reconcile d fp (globList d i)) fp = getFile d m)
    ∧ (∀ f, f ≠ fp → containsSubL f (globPat i) = true →
        fileSize (reconcile d fp (globList d i)) f = 0) := by
  refine ⟨?_, ?_, ?_, ?_⟩
  · have h := reconcileC_count_le_one fp (globList d i) d 0
    simpa [reconcileC] using h
  · intro hpos f hmem hf
    exact reconcile_deletes_when_target_full fp (globList d i) d hpos f hmem hf
  · intro ms1 m ms2 hsplit hall hm hms hfp
    rw [hsplit]
    exact reconcile_first_rename fp ms1 m ms2 d hall hm hms hfp
  · intro f hf hpat
    by_cases hmem : f ∈ globList d i
    · exact reconcile_matches_empty fp f hf _ d hmem
    · have hnone : getFile d f = none := by
        by_cases hg : getFile d f = none
        · exact hg
        · exact absurd ((mem_globList d i f).mpr
            ⟨getFile_isSome_mem_keys d f hg, hpat⟩) hmem
      have hrec := reconcile_none fp f hf (globList d i) d hnone
      unfold fileSize
      rw [hrec]
      rfl

/-- C3 witness: the spec's pinned scenario for id 42, in both directions —
recovery by rename with bytes preserved, and deletion of the stale
duplicate when the target is already valid. -/
theorem c3_reconciliation_witness :
    getFile (reconcile [(pstr "oldname_42.png", [7])] (pstr "newname_42.png")
        (globList [(pstr "oldname_42.png", [7])] 42)) (pstr "newname_42.png")
      = some [7]
    ∧ getFile (reconcile [(pstr "newname_42.png", [1]), (pstr "oldname_42.png", [7])]
        (pstr "newname_42.png")
        (globList [(pstr "newname_42.png", [1]), (pstr "oldname_42.png", [7])] 42))
        (pstr "oldname_42.png") = none
    ∧ (reconcileC [(pstr "oldname_42.png", [7])] (pstr "newname_42.png")
        (globList [(pstr "oldname_42.png", [7])] 42)).2 ≤ 1 := by
  refine ⟨?_, ?_, ?_⟩
  · have h := (c3_reconciliation [(pstr "oldname_42.png", [7])] 42
        (pstr "newname_42.png")).2.2.1 [] (pstr "oldname_42.png") []
        (by decide) (by decide) (by decide) (by decide) (by decide)
    rw [h]
    decide
  · exact (c3_reconciliation [(pstr "newname_42.png", [1]), (pstr "oldname_42.png", [7])]
      42 (pstr "newname_42.png")).2.1 (by decide) (pstr "oldname_42.png")
      (by decide) (by decide)
  · exact (c3_reconciliation [(pstr "oldname_42.png", [7])] 42 (pstr "newname_42.png")).1

/-! ## Claim C5 -/

/-- C5: when every response to the transfer is HTTP 429 — or every attempt
raises an exception whose text names a 429 — both `download_image`
variants perform exactly 10 attempts (one request per attempt), sleep
`(attempt+1) * 10` seconds after each one (10, 20, ..., 100), and return a
failed result, leaving the reconciled directory untouched. -/
theorem c5_rate_limit_retries (img : Img) (d : Disk) (bs : Nat → List Nat)
    (hurl : img.url ≠ [])
    (hM : fileSize (reconcile d (filenameMain img) (globList d img.id))
      (filenameMain img) = 0)
    (hC : fileSize (reconcile d (filenameColl img) (globList d img.id))
      (filenameColl img) = 0) :
    downloadImageMain img d (fun j => Resp.ok 429 (bs j))
      = ⟨false, 10, [10, 20, 30, 40, 50, 60, 70, 80, 90, 100],
          reconcile d (filenameMain img) (globList d img.id)⟩
    ∧ downloadImageMain img d (fun _ => Resp.exc true)
      = ⟨false, 10, [10, 20, 30, 40, 50, 60, 70, 80, 90, 100],
          reconcile d (filenameMain img) (globList d img.id)⟩
    ∧ downloadImageColl img d (fun j => Resp.ok 429 (bs j))
      = ⟨false, 10, [10, 20, 30, 40, 50, 60, 70, 80, 90, 100],
          reconcile d (filenameColl img) (globList d img.id)⟩
    ∧ downloadImageColl img d (fun _ => Resp.exc true)
      = ⟨false, 10, [10, 20, 30, 40, 50, 60, 70, 80, 90, 100],
          reconcile d (filenameColl img) (globList d img.id)⟩ := by
  refine ⟨?_, ?_, ?_, ?_⟩
  · simp only [downloadImageMain]
    rw [if_neg hurl, if_neg (by simp [hM]), dlLoopMain_429]
    rfl
  · simp only [downloadImageMain]
    rw [if_neg hurl, if_neg (by simp [hM]), dlLoopMain_exc429]
    rfl
  · simp only [downloadImageColl]
    rw [if_neg hurl, if_neg (by simp [hC]), dlLoopColl_429]
    rfl
  · simp only [downloadImageColl]
    rw [if_neg hurl, if_neg (by simp [hC]), dlLoopColl_exc429]
    rfl

/-- C5 witness: the rate-limit bound at a concrete item and an empty
directory. -/
theorem c5_rate_limit_retries_witness :
    downloadImageMain { id := 5, url := pstr "https://h/x.png", name := some (pstr "new") }
        [] (fun _ => Resp.ok 429 [])
      = ⟨false, 10, [10, 20, 30, 40, 50, 60, 70, 80, 90, 100], []⟩
    ∧ downloadImageColl { id := 5, url := pstr "https://h/x.png", name := some (pstr "new") }
        [] (fun _ => Resp.exc true)
      = ⟨false, 10, [10, 20, 30, 40, 50, 60, 70, 80, 90, 100], []⟩ :=
  ⟨(c5_rate_limit_retries { id := 5, url := pstr "https://h/x.png", name := some (pstr "new") }
      [] (fun _ => []) (by decide) (by decide) (by decide)).1,
    (c5_rate_limit_retries { id := 5, url := pstr "https://h/x.png", name := some (pstr "new") }
      [] (fun _ => []) (by decide) (by decide) (by decide)).2.2.2⟩

/-! ## Claim C6 -/

/-- C6 counterexample: the collection variant returns success for an HTTP
200 whose body is empty, leaving a zero-byte file on disk — it performs no
post-write size verification. -/
theorem c6_counterexample :
    (downloadImageColl { id := 5, url := pstr "https://h/x.png", name := some (pstr "new") }
        [] (fun _ => Resp.ok 200 [])).success = true
    ∧ fileSize (downloadImageColl
        { id := 5, url := pstr "https://h/x.png", name := some (pstr "new") }
        [] (fun _ => Resp.ok 200 [])).disk
        (filenameColl { id := 5, url := pstr "https://h/x.png", name := some (pstr "new") })
      = 0 := by
  decide

/-- C6 (amended): `download_image` of `civitai_downloader.py` verifies the
written file: it never reports success with an empty target, and an
endpoint that always answers 200 with an empty body consumes the whole
10-attempt budget and returns failure.  The collection variant has no such
verification: a 200 with any body — the empty body included — is returned
as success immediately. -/
theorem c6_empty_verify_amended (img : Img) (d : Disk) (api : Api) (b : List Nat) :
    ((downloadImageMain img d api).success = true →
      0 < fileSize (downloadImageMain img d api).disk (filenameMain img))
    ∧ (img.url ≠ [] →
      fileSize (reconcile d (filenameMain img) (globList d img.id))
          (filenameMain img) = 0 →
      downloadImageMain img d (fun _ => Resp.ok 200 [])
        = ⟨false, 10, [],
            setFile (reconcile d (filenameMain img) (globList d img.id))
              (filenameMain img) []⟩)
    ∧ (img.url ≠ [] →
      fileSize (reconcile d (filenameColl img) (globList d img.id))
          (filenameColl img) = 0 →
      downloadImageColl img d (fun _ => Resp.ok 200 b)
        = ⟨true, 1, [],
            setFile (reconcile d (filenameColl img) (globList d img.id))
              (filenameColl img) b⟩) := by
  refine ⟨downloadImageMain_success_size img d api, ?_, ?_⟩
  · intro hurl h0
    simp only [downloadImageMain]
    rw [if_neg hurl, if_neg (by simp [h0])]
    have h := dlLoopMain_empty200 (filenameMain img)
      (canonicalUrlMain img ≠ img.url && startsWithL img.url (pstr "http"))
      9 0 0 [] (reconcile d (filenameMain img) (globList d img.id))
    simpa using h
  · intro hurl h0
    simp only [downloadImageColl]
    rw [if_neg hurl, if_neg (by simp [h0])]
    have h := dlLoopColl_200 (fun _ => Resp.ok 200 b) (filenameColl img)
      (canonicalUrlColl img ≠ img.url) b 9 0 0 []
      (reconcile d (filenameColl img) (globList d img.id)) rfl
    simpa using h

/-- C6 witness: the empty-body behaviours at a concrete item. -/
theorem c6_empty_verify_amended_witness :
    downloadImageMain { id := 5, url := pstr "https://h/x.png", name := some (pstr "new") }
        [] (fun _ => Resp.ok 200 [])
      = ⟨false, 10, [], [(pstr "new_5.png", [])]⟩
    ∧ downloadImageColl { id := 5, url := pstr "https://h/x.png", name := some (pstr "new") }
        [] (fun _ => Resp.ok 200 [])
      = ⟨true, 1, [], [(pstr "new_5.png", [])]⟩ :=
  ⟨(c6_empty_verify_amended { id := 5, url := pstr "https://h/x.png", name := some (pstr "new") }
      [] (fun _ => Resp.exc false) []).2.1 (by decide) (by decide),
    (c6_empty_verify_amended { id := 5, url := pstr "https://h/x.png", name := some (pstr "new") }
      [] (fun _ => Resp.exc false) []).2.2 (by decide) (by decide)⟩

/-! ## Claim C10 -/

/-- C10 counterexample: the two `download_image` implementations are not
behaviourally equivalent.  On the same item, the same empty directory and
the same response sequence — a 404 followed by a valid 200 — the main
variant retries and succeeds while the collection variant gives up and
fails after the first response. -/
theorem c10_counterexample :
    (downloadImageMain { id := 7, url := pstr "https://h/x.png", name := some (pstr "a") }
        [] (fun k => if k = 0 then Resp.ok 404 [] else Resp.ok 200 [1])).success = true
    ∧ (downloadImageColl { id := 7, url := pstr "https://h/x.png", name := some (pstr "a") }
        [] (fun k => if k = 0 then Resp.ok 404 [] else Resp.ok 200 [1])).success = false := by
  decide

/-- C10 (amended): the duplicated workers agree on the already-present
path: whenever they compute the same target filename and that target
exists non-empty after reconciliation, both return the same result —
success, zero requests, no sleeps, and the identical reconciled directory
— for any pair of response oracles.  (In general the two implementations
diverge, as the counterexample shows.) -/
theorem c10_equiv_amended (img : Img) (d : Disk) (api1 api2 : Api)
    (hurl : img.url ≠ [])
    (hfn : filenameColl img = filenameMain img)
    (hpos : 0 < fileSize (reconcile d (filenameMain img) (globList d img.id))
      (filenameMain img)) :
    downloadImageMain img d api1 = downloadImageColl img d api2 := by
  rw [downloadImageMain_already_present img d api1 hurl hpos]
  rw [downloadImageColl_already_present img d api2 hurl (by rw [hfn]; exact hpos)]
  rw [hfn]

/-- C10 witness: the agreement at a concrete already-present item, under
two different oracles. -/
theorem c10_equiv_amended_witness :
    downloadImageMain { id := 5, url := pstr "https://h/x.png", name := some (pstr "new") }
        [(pstr "new_5.png", [1])] (fun _ => Resp.exc false)
      = downloadImageColl { id := 5, url := pstr "https://h/x.png", name := some (pstr "new") }
        [(pstr "new_5.png", [1])] (fun _ => Resp.ok 404 []) :=
  c10_equiv_amended { id := 5, url := pstr "https://h/x.png", name := some (pstr "new") }
    [(pstr "new_5.png", [1])] (fun _ => Resp.exc false) (fun _ => Resp.ok 404 [])
    (by decide) (by decide) (by decide)

end Civitai
